import Mathlib

/-!
Verification development for the hyper-fundingfee repository.

The repository implements a cross-venue funding-rate arbitrage controller.
This file gives a shallow embedding of the core components into Lean:

  - the risk-guard layer (src/risk/limits.py, src/risk/guardrails.py):
    notional limiter, sliding-window order-rate limiter, drawdown guard;
  - the dual-leg entry strategy (src/strategy/funding_carry.py):
    price selection, size quantization and the atomic two-leg protocol of
    FundingCarryStrategy.evaluate_and_place, instrumented with an explicit
    gateway-call trace;
  - the orchestrator (src/app/runner.py): the exposure ledger mutations of
    _close_spot / _close_perp / entry bookkeeping, the hedge-repair state
    machine _repair_hedge, and the per-cycle StrategyRunner.step;
  - the key/value part of StateStore (src/core/persistence.py).

Python Decimal values are embedded as exact rationals; Python dicts keyed by
strings are embedded as association lists updated in place.  Gateway calls
are modelled by environments holding the values the venue would return, and
order placement / cancellation show up as entries of an explicit action
trace.  Exceptions swallowed by try/except blocks in the source are modelled
by Boolean success flags in the environments where a failure changes
observable behaviour.
-/

namespace FundingFee

/-! ## Risk layer: NotionalLimiter (src/risk/limits.py) -/

/-- Association-list embedding of the Python dict
symbol_to_notional of NotionalLimiter. -/
abbrev NMap := List (String × ℚ)

/-- Lookup with default 0, mirroring symbol_to_notional.get(symbol, Decimal(0)). -/
def nlookup : NMap → String → ℚ
  | [], _ => 0
  | (k, v) :: rest, s => if k = s then v else nlookup rest s

/-- In-place dict update: replace the binding of the key, or append it. -/
def nupdate : NMap → String → ℚ → NMap
  | [], s, v => [(s, v)]
  | (k, w) :: rest, s, v => if k = s then (s, v) :: rest else (k, w) :: nupdate rest s v

/-- Sum of the dict values, mirroring sum(self.symbol_to_notional.values()). -/
def ntotal (m : NMap) : ℚ := (m.map Prod.snd).sum

/-- Caps of the NotionalLimiter dataclass. -/
structure NLCaps where
  perSymbolCap : ℚ
  portfolioCap : ℚ
deriving DecidableEq

/-- NotionalLimiter.can_add: the candidate per-symbol total and portfolio
total are clamped at zero from below before being compared to the caps. -/
def canAdd (caps : NLCaps) (m : NMap) (symbol : String) (deltaUsd : ℚ) : Bool :=
  let curSymbol := nlookup m symbol
  let newSymbol := curSymbol + deltaUsd
  let newSymbol := if newSymbol < 0 then 0 else newSymbol
  let portfolioTotal := ntotal m + deltaUsd
  let portfolioTotal := if portfolioTotal < 0 then 0 else portfolioTotal
  decide (newSymbol ≤ caps.perSymbolCap ∧ portfolioTotal ≤ caps.portfolioCap)

/-- NotionalLimiter.apply: none models the raised ValueError; on success the
updated binding is clamped at zero from below. -/
def applyNL (caps : NLCaps) (m : NMap) (symbol : String) (deltaUsd : ℚ) : Option NMap :=
  if canAdd caps m symbol deltaUsd then
    let v := nlookup m symbol + deltaUsd
    let v := if v < 0 then 0 else v
    some (nupdate m symbol v)
  else
    none

/-- One apply call of a call sequence: a rejected apply raises and leaves the
dict unchanged. -/
def applyNLOrKeep (caps : NLCaps) (m : NMap) (op : String × ℚ) : NMap :=
  (applyNL caps m op.1 op.2).getD m

/-- Run a sequence of apply calls starting from the empty dict. -/
def runNL (caps : NLCaps) (ops : List (String × ℚ)) : NMap :=
  ops.foldl (applyNLOrKeep caps) []

/-! ## Risk layer: OrderRateLimiter (src/risk/limits.py) -/

/-- OrderRateLimiter.allow at an explicit wall-clock time: prune entries older
than 60 seconds, admit and record the timestamp only if the pruned window is
below the ceiling.  Returns the decision and the new stored window. -/
def allowRL (maxActionsPerMin : ℕ) (now : ℚ) (times : List ℚ) : Bool × List ℚ :=
  let pruned := times.filter (fun t => now - 60 ≤ t)
  if pruned.length < maxActionsPerMin then (true, pruned ++ [now]) else (false, pruned)

/-- Run a sequence of allow() calls at the given times, returning the list of
(call time, decision) pairs together with the final stored window. -/
def runRL (maxActionsPerMin : ℕ) (times : List ℚ) (calls : List ℚ) :
    List (ℚ × Bool) × List ℚ :=
  match calls with
  | [] => ([], times)
  | now :: rest =>
    let step := allowRL maxActionsPerMin now times
    let further := runRL maxActionsPerMin step.2 rest
    ((now, step.1) :: further.1, further.2)

/-- Number of calls that returned true whose call time lies in the closed
60-second interval starting at a. -/
def countTrueWin (results : List (ℚ × Bool)) (a : ℚ) : ℕ :=
  results.countP (fun p => p.2 && decide (a ≤ p.1) && decide (p.1 ≤ a + 60))

/-! ## Risk layer: DrawdownGuard (src/risk/guardrails.py) -/

/-- DrawdownGuard dataclass state. -/
structure DGuard where
  maxDrawdownUsd : ℚ
  peak : ℚ
  haltedFlag : Bool
deriving DecidableEq

/-- DrawdownGuard.update_equity: raise the peak if exceeded, then set the
halted flag permanently when the drawdown from the peak reaches the cap. -/
def updateEquity (g : DGuard) (equityUsd : ℚ) : DGuard :=
  let peak := if equityUsd > g.peak then equityUsd else g.peak
  let drawdown := peak - equityUsd
  { g with peak := peak,
           haltedFlag := if drawdown ≥ g.maxDrawdownUsd then true else g.haltedFlag }

/-- DrawdownGuard.halted. -/
def dgHalted (g : DGuard) : Bool := g.haltedFlag

/-! ## Venue response and gateway-call model

Hyperliquid order responses carry response.data.statuses, a list of status
dicts.  Following the decoding of §9 of the design (each status is one of a
resting order, a fill report, or an error), a status is embedded as a tagged
variant; the strategy code only ever tests dict membership of the keys
"error", "filled" and "resting" and reads filled.totalSz, filled.avgPx and
resting.oid. -/

inductive HLStatus where
  | filledS (totalSz avgPx : ℚ)
  | restingS (oid : ℤ)
  | errorS (msg : String)
  | otherS
deriving DecidableEq

/-- Statuses list of one order response. -/
abbrev Resp := List HLStatus

/-- Venue of a gateway call. -/
inductive Venue where
  | spotV
  | perpV
deriving DecidableEq

/-- Order side. -/
inductive Side where
  | buy
  | sell
deriving DecidableEq

/-- One observable gateway action or audit-log append.  placeOrder carries the
arguments of ExchangeGateway.place_order, cancelOrder those of cancel_order;
evalCall marks an invocation of FundingCarryStrategy.evaluate_and_place by the
runner; appendEvent marks StateStore.append_event with the event kind. -/
inductive Action where
  | placeOrder (venue : Venue) (side : Side) (qty px : ℚ)
      (tif : String) (reduceOnly postOnly : Bool)
  | cancelOrder (venue : Venue) (oid : ℤ)
  | evalCall
  | appendEvent (kind : String)
deriving DecidableEq

/-- Number of place_order calls issued to the perp gateway in a trace. -/
def perpPlaceCount (tr : List Action) : ℕ :=
  tr.countP fun a =>
    match a with
    | .placeOrder .perpV _ _ _ _ _ _ => true
    | _ => false

/-- Order ids of the cancel_order calls issued to the spot gateway, in order. -/
def spotCancelOids (tr : List Action) : List ℤ :=
  tr.filterMap fun a =>
    match a with
    | .cancelOrder .spotV oid => some oid
    | _ => none

/-- Whether a trace contains a place_order call on the perp gateway. -/
def hasPerpPlace (tr : List Action) : Bool := decide (0 < perpPlaceCount tr)

/-- Whether a statuses list contains a status dict with an "error" key. -/
def hasErrorStatus (statuses : Resp) : Bool :=
  statuses.any fun s =>
    match s with
    | .errorS _ => true
    | _ => false

/-- First resting status oid of a statuses list, as scanned by the
for-loops over statuses in funding_carry.py and runner.py. -/
def findRestingOid (statuses : Resp) : Option ℤ :=
  match statuses with
  | [] => none
  | .restingS oid :: _ => some oid
  | _ :: rest => findRestingOid rest

/-- Whether any status of the list is a resting status (the maker-fee
heuristic "resting implies maker" used by the runner). -/
def anyResting (statuses : Resp) : Bool :=
  statuses.any fun s =>
    match s with
    | .restingS _ => true
    | _ => false

/-- Fill parser _filled of evaluate_and_place: the first "filled" status gives
(totalSz * avgPx, totalSz, avgPx); otherwise zeros. -/
def filledOf (statuses : Resp) : ℚ × ℚ × ℚ :=
  match statuses with
  | [] => (0, 0, 0)
  | .filledS sz avg :: _ => (sz * avg, sz, avg)
  | _ :: rest => filledOf rest

/-- First "filled" status of a statuses list, as scanned by the close and
repair fill loops (each processes every filled status in order; the helper
below folds them). -/
def filledStatuses (statuses : Resp) : List (ℚ × ℚ) :=
  statuses.filterMap fun s =>
    match s with
    | .filledS sz avg => some (sz, avg)
    | _ => none

/-! ## Strategy: FundingCarryStrategy (src/strategy/funding_carry.py) -/

/-- L2 book snapshot: the levels array, each level a list of prices (the px
fields of the level entries). -/
abbrev L2 := List (List ℚ)

/-- Best bid/ask extraction _best_bid_ask_from_l2: levels[0] are bids,
levels[1] asks, missing levels or empty sides give price 0. -/
def bestBidAsk (l2 : L2) : ℚ × ℚ :=
  let bids := l2.getD 0 []
  let asks := l2.getD 1 []
  ((bids.head?).getD 0, (asks.head?).getD 0)

/-- Symbol metadata needed by the strategy: price tick and size decimals. -/
structure SymbolMeta where
  tick : ℚ
  sizeDecimals : ℕ
deriving DecidableEq

/-- Truncation toward zero of a rational, matching Decimal floor division
(Python Decimal // truncates toward zero). -/
def truncQ (x : ℚ) : ℤ :=
  if x < 0 then -(Int.floor (-x)) else Int.floor x

/-- Size quantum for a number of size decimals. -/
def quantumOf (sizeDecimals : ℕ) : ℚ := 1 / 10 ^ sizeDecimals

/-- Quantization helper (qty // quantum) * quantum of _quantize_size and of
the inline copies in runner.py. -/
def quantizeBy (qty quantum : ℚ) : ℚ := (truncQ (qty / quantum) : ℚ) * quantum

/-- The _quantize_size helper of funding_carry.py. -/
def quantizeSize (qty : ℚ) (sizeDecimals : ℕ) : ℚ :=
  quantizeBy qty (quantumOf sizeDecimals)

/-- StrategyConfig dataclass. -/
structure StratCfg where
  enterThresholdApr : ℚ
  exitThresholdApr : ℚ
  targetUsdNotional : ℚ
  hedgeRatio : ℚ
  priceOffsetTicks : ℤ
  tif : String
  postOnly : Bool
deriving DecidableEq

/-- FundingCarryStrategy._price_for_side: a passive price offset from the top
of book, clamped when post_only so it does not cross the opposing side. -/
def priceForSide (cfg : StratCfg) (meta : SymbolMeta) (l2 : L2)
    (side : Side) (offsetTicks : ℤ) : ℚ :=
  let bid := (bestBidAsk l2).1
  let ask := (bestBidAsk l2).2
  match side with
  | .buy =>
    let price := bid + meta.tick * (offsetTicks : ℚ)
    if cfg.postOnly ∧ ask > 0 ∧ price ≥ ask then max bid (ask - meta.tick) else price
  | .sell =>
    let price := ask - meta.tick * (offsetTicks : ℚ)
    if cfg.postOnly ∧ bid > 0 ∧ price ≤ bid then min ask (bid + meta.tick) else price

/-- Environment of one evaluate_and_place call: everything the two gateways
would answer during the call.  Each gateway query is assumed stable within
the call, so repeated get_l2 reads return the same book. -/
structure StratEnv where
  funding : Option ℚ
  spotL2 : L2
  perpL2 : L2
  spotMeta : SymbolMeta
  perpMeta : SymbolMeta
  balances : List (String × ℚ)
  spotResp : Resp
  perpResp : Resp
deriving DecidableEq

/-- Result dict of evaluate_and_place, restricted to the keys the runner
reads.  spotOrder/perpOrder are the entries of the "orders" list. -/
structure EvalResult where
  apr : Option ℚ
  entered : Bool
  spotFilledUsd : ℚ
  perpFilledUsd : ℚ
  spotFilledSz : ℚ
  perpFilledSz : ℚ
  spotFilledAvg : ℚ
  perpFilledAvg : ℚ
  spotOid : Option ℤ
  perpOid : Option ℤ
  spotOrder : Option Resp
  perpOrder : Option Resp
deriving DecidableEq

/-- Result dict as initialized at the top of evaluate_and_place. -/
def emptyEvalResult (apr : Option ℚ) : EvalResult :=
  { apr := apr, entered := false,
    spotFilledUsd := 0, perpFilledUsd := 0,
    spotFilledSz := 0, perpFilledSz := 0,
    spotFilledAvg := 0, perpFilledAvg := 0,
    spotOid := none, perpOid := none,
    spotOrder := none, perpOrder := none }

/-- FundingCarryStrategy.compute_expected_funding_apr: the funding field of
get_funding, already parsed; none models a missing or unparseable rate. -/
def computeExpectedFundingApr (env : StratEnv) : Option ℚ := env.funding

/-- FundingCarryStrategy._compute_target_qtys. -/
def computeTargetQtys (cfg : StratCfg) (env : StratEnv) : ℚ × ℚ :=
  let sb := (bestBidAsk env.spotL2).1
  let sa := (bestBidAsk env.spotL2).2
  let pb := (bestBidAsk env.perpL2).1
  let pa := (bestBidAsk env.perpL2).2
  let spotMid := if sa > 0 then (sb + sa) / 2 else sb
  let perpMid := if pa > 0 then (pb + pa) / 2 else pb
  if spotMid ≤ 0 ∨ perpMid ≤ 0 then (0, 0)
  else
    let baseQty := cfg.targetUsdNotional / spotMid * cfg.hedgeRatio
    (quantizeSize baseQty env.spotMeta.sizeDecimals,
     quantizeSize baseQty env.perpMeta.sizeDecimals)

/-- Quote-balance lookup of the pre-trade balance check: the first balance
entry whose coin matches the quote currency gives the quote balance,
defaulting to 0.  The source uppercases both sides before comparing; coin
names are embedded already uppercased, so the comparison is plain equality. -/
def quoteBalanceOf (balances : List (String × ℚ)) (quoteCcy : String) : ℚ :=
  match balances.find? (fun b => b.1 = quoteCcy) with
  | some b => b.2
  | none => 0

/-- Market symbols together with the results of splitting the spot symbol on
"/" (string splitting itself is venue plumbing): spotBase is
spot_symbol.split("/")[0], spotQuote is spot_symbol.split("/")[1], with none
modelling the IndexError of a symbol without "/" (caught by the pre-check,
aborting the entry). -/
structure MarketSyms where
  spotSymbol : String
  perpSymbol : String
  spotBase : String
  spotQuote : Option String
deriving DecidableEq

/-- FundingCarryStrategy.evaluate_and_place, instrumented with the trace of
gateway calls it makes.  The atomic two-leg protocol: pre-check the quote
balance, place the spot BUY, abort on a spot error status, place the perp
SELL, on a perp error status cancel the first resting spot order. -/
def evaluateAndPlace (cfg : StratCfg) (syms : MarketSyms) (env : StratEnv) :
    EvalResult × List Action :=
  let apr := computeExpectedFundingApr env
  let result := emptyEvalResult apr
  match apr with
  | none => (result, [])
  | some aprV =>
    if aprV ≥ cfg.enterThresholdApr then
      let qtys := computeTargetQtys cfg env
      let spotQty := qtys.1
      let perpQty := qtys.2
      if spotQty ≤ 0 ∨ perpQty ≤ 0 then (result, [])
      else
        let spotPx := priceForSide cfg env.spotMeta env.spotL2 .buy cfg.priceOffsetTicks
        let perpPx := priceForSide cfg env.perpMeta env.perpL2 .sell cfg.priceOffsetTicks
        match syms.spotQuote with
        | none => (result, [])
        | some quoteCcy =>
          let quoteBal := quoteBalanceOf env.balances quoteCcy
          let neededQuote := spotQty * spotPx
          if quoteBal ≤ 0 ∨ neededQuote > quoteBal then (result, [])
          else
            let placeSpot : Action :=
              .placeOrder .spotV .buy spotQty spotPx cfg.tif false cfg.postOnly
            if hasErrorStatus env.spotResp then
              ({ result with spotOrder := some env.spotResp }, [placeSpot])
            else
              let placePerp : Action :=
                .placeOrder .perpV .sell perpQty perpPx cfg.tif false cfg.postOnly
              let sf := filledOf env.spotResp
              let pf := filledOf env.perpResp
              let filled :=
                { result with
                  spotOrder := some env.spotResp, perpOrder := some env.perpResp,
                  spotFilledUsd := sf.1, spotFilledSz := sf.2.1, spotFilledAvg := sf.2.2,
                  perpFilledUsd := pf.1, perpFilledSz := pf.2.1, perpFilledAvg := pf.2.2 }
              if hasErrorStatus env.perpResp then
                match findRestingOid env.spotResp with
                | some oid =>
                  (filled, [placeSpot, placePerp, .cancelOrder .spotV oid])
                | none => (filled, [placeSpot, placePerp])
              else
                ({ filled with
                   entered := true,
                   spotOid := findRestingOid env.spotResp,
                   perpOid := findRestingOid env.perpResp },
                 [placeSpot, placePerp])
    else (result, [])

/-! ## Persistence: StateStore key/value table (src/core/persistence.py)

The kv table has primary key k, put is INSERT OR REPLACE, get is a lookup
returning None for a missing key.  The JSON round trip dumps/loads is the
identity on JSON-serializable values, so the payload type is a parameter. -/

/-- Rows of the kv table, keyed by the primary key column k. -/
abbrev KVStore (α : Type) := List (String × α)

/-- StateStore.put: INSERT OR REPLACE on the primary key. -/
def kvPut {α : Type} (s : KVStore α) (k : String) (v : α) : KVStore α :=
  match s with
  | [] => [(k, v)]
  | (k', w) :: rest => if k' = k then (k, v) :: rest else (k', w) :: kvPut rest k v

/-- StateStore.get: SELECT v FROM kv WHERE k = ?, none when no row exists. -/
def kvGet {α : Type} (s : KVStore α) (k : String) : Option α :=
  match s with
  | [] => none
  | (k', v) :: rest => if k' = k then some v else kvGet rest k

/-- Run a sequence of put calls against a fresh store. -/
def runKV {α : Type} (ops : List (String × α)) : KVStore α :=
  ops.foldl (fun s p => kvPut s p.1 p.2) []

/-! ## Orchestrator: StrategyRunner (src/app/runner.py)

The runner state holds the exposure ledger, the cooldown timestamps, the
hedge-repair state and the owned risk-guard structures.  Each gateway-facing
step takes an environment of venue answers; Boolean ok-flags model the
try/except blocks whose failure changes observable behaviour (a raised call
skips the remainder of its try block). -/

/-- Fee rates of the fees config section. -/
structure FeesCfg where
  spotMaker : ℚ
  spotTaker : ℚ
  perpMaker : ℚ
  perpTaker : ℚ
deriving DecidableEq

/-- The configuration fields of AppConfig read by the embedded runner code.
Numeric fields defaulted in the source with a Python or-expression use 0 to
model a missing value. -/
structure RunnerCfg where
  syms : MarketSyms
  strat : StratCfg
  fees : FeesCfg
  caps : NLCaps
  repriceIntervalMs : ℚ
  hedgeRepairTimeoutMs : ℚ
  hedgeRepairStageMs : ℚ
  hedgeRepairTif : String
  enterExitCooldownSCfg : ℚ
  maxReplacesPerMin : ℕ
  alignEnabled : Bool
  alignMode : String
  alignMinDiffQuanta : ℚ
deriving DecidableEq

/-- min_entry_interval_s = max(0.2, (reprice_interval_ms or 800) / 1000). -/
def minEntryIntervalS (cfg : RunnerCfg) : ℚ :=
  max (1/5) ((if cfg.repriceIntervalMs = 0 then 800 else cfg.repriceIntervalMs) / 1000)

/-- enter_exit_cooldown_s = int(cfg.execution.enter_exit_cooldown_s or 300);
the configured value is assumed integral. -/
def enterExitCooldownS (cfg : RunnerCfg) : ℚ :=
  if cfg.enterExitCooldownSCfg = 0 then 300 else cfg.enterExitCooldownSCfg

/-- timeout_s = max(1.0, (hedge_repair_timeout_ms or 5000) / 1000). -/
def repairTimeoutS (cfg : RunnerCfg) : ℚ :=
  max 1 ((if cfg.hedgeRepairTimeoutMs = 0 then 5000 else cfg.hedgeRepairTimeoutMs) / 1000)

/-- stage_s = max(0.5, (hedge_repair_stage_ms or 1500) / 1000). -/
def repairStageS (cfg : RunnerCfg) : ℚ :=
  max (1/2) ((if cfg.hedgeRepairStageMs = 0 then 1500 else cfg.hedgeRepairStageMs) / 1000)

/-- hedge_repair_tif or "Ioc". -/
def repairTif (cfg : RunnerCfg) : String :=
  if cfg.hedgeRepairTif = "" then "Ioc" else cfg.hedgeRepairTif

/-- Mutable state of StrategyRunner: exposure ledger, throttle timestamps,
hedge-repair state and owned risk structures. -/
structure Runner where
  cumSpotUsd : ℚ
  cumPerpUsd : ℚ
  costSpotUsd : ℚ
  costPerpUsd : ℚ
  feeSpotUsd : ℚ
  feePerpUsd : ℚ
  realizedPnlSpot : ℚ
  realizedPnlPerp : ℚ
  szSpot : ℚ
  szPerp : ℚ
  lastEntryTs : ℚ
  lastPnlLogTs : ℚ
  exitInProgress : Bool
  lastExitTs : ℚ
  lastFlatTs : ℚ
  repairActive : Bool
  repairStartTs : ℚ
  repairTargetSz : ℚ
  repairSide : String
  repairCancelDone : Bool
  lastSpotEntryOid : Option ℤ
  limiter : NMap
  rlTimes : List ℚ
  guard : DGuard
deriving DecidableEq

/-- Runner state as constructed in StrategyRunner.__init__ (the drawdown cap
is risk.max_drawdown_usd). -/
def initRunner (maxDrawdownUsd : ℚ) : Runner :=
  { cumSpotUsd := 0, cumPerpUsd := 0, costSpotUsd := 0, costPerpUsd := 0,
    feeSpotUsd := 0, feePerpUsd := 0, realizedPnlSpot := 0, realizedPnlPerp := 0,
    szSpot := 0, szPerp := 0,
    lastEntryTs := 0, lastPnlLogTs := 0, exitInProgress := false,
    lastExitTs := 0, lastFlatTs := 0,
    repairActive := false, repairStartTs := 0, repairTargetSz := 0,
    repairSide := "", repairCancelDone := false, lastSpotEntryOid := none,
    limiter := [], rlTimes := [],
    guard := { maxDrawdownUsd := maxDrawdownUsd, peak := 0, haltedFlag := false } }

/-- One entry of a get_open_orders answer: the resolved order id (oid or
orderId or id, none when all are missing) and the resolved symbol (symbol or
coin, defaulted to the market symbol). -/
structure OpenOrder where
  oid : Option ℤ
  symbol : String
deriving DecidableEq

/-- Environment of one _close_perp call. -/
structure ClosePerpEnv where
  perpBid : ℚ
  perpAsk : ℚ
  szi1 : ℚ
  perpSizeDecimals : ℕ
  placeOk : Bool
  resp : Resp
  sziDetail : ℚ
  entryDetail : Option ℚ
  szi3 : ℚ
deriving DecidableEq

/-- Fill processing of one status of the _close_perp response: book realized
PnL against the tracked (or venue-reported) average entry, reduce the tracked
short, and account the closing fee with the resting-implies-maker
heuristic. -/
def closePerpFillStep (cfg : RunnerCfg) (env : ClosePerpEnv)
    (st : Runner) (status : HLStatus) : Runner :=
  match status with
  | .filledS filledSz avgPx =>
    if filledSz > 0 then
      let localOpenSz := if st.szPerp > 0 then st.szPerp
        else (if env.sziDetail < 0 then -env.sziDetail else 0)
      let useSz := if localOpenSz > 0 then min filledSz localOpenSz else 0
      let entryAvg := if st.szPerp > 0 ∧ st.costPerpUsd > 0
        then st.costPerpUsd / st.szPerp else env.entryDetail.getD 0
      let st :=
        if useSz > 0 ∧ entryAvg > 0 then
          let st := { st with
            realizedPnlPerp := st.realizedPnlPerp + (entryAvg - avgPx) * useSz }
          if st.szPerp > 0 then
            { st with
              costPerpUsd := st.costPerpUsd - entryAvg * useSz,
              szPerp := st.szPerp - useSz }
          else st
        else st
      let wasMaker := anyResting env.resp
      let feeRate := if wasMaker then cfg.fees.perpMaker else cfg.fees.perpTaker
      { st with feePerpUsd := st.feePerpUsd + filledSz * avgPx * feeRate }
    else st
  | _ => st

/-- StrategyRunner._close_perp: close the venue-reported short with a
reduce-only BUY at the ask, book realized PnL and fees against the tracked
average cost, then sync the local perp size with the venue. -/
def closePerp (cfg : RunnerCfg) (s : Runner) (env : ClosePerpEnv) :
    Runner × List Action :=
  let bid := env.perpBid
  let ask := env.perpAsk
  let mid := if ask > 0 then (bid + ask) / 2 else bid
  if mid ≤ 0 then (s, [])
  else
    let szi := env.szi1
    let shortQty := if szi < 0 then -szi else (if s.szPerp > 0 then s.szPerp else 0)
    let quantum := quantumOf env.perpSizeDecimals
    let qty := quantizeBy shortQty quantum
    if qty ≤ 0 then (s, [])
    else
      let buyPx := if ask > 0 then ask else mid
      let s1 :=
        if env.placeOk then env.resp.foldl (closePerpFillStep cfg env) s
        else s
      let acts : List Action :=
        if env.placeOk then
          [.placeOrder .perpV .buy qty buyPx cfg.strat.tif true false]
        else []
      ({ s1 with szPerp := if env.szi3 < 0 then -env.szi3 else 0 }, acts)

/-- First balance entry of a get_balances answer whose coin equals the base
asset, as scanned by _close_spot; none models a missing entry. -/
def baseAmountOf (balances : List (String × ℚ)) (base : String) : Option ℚ :=
  (balances.find? (fun b => b.1 = base)).map Prod.snd

/-- Environment of one _close_spot call. -/
structure CloseSpotEnv where
  balances : List (String × ℚ)
  spotSizeDecimals : ℕ
  spotBid : ℚ
  placeOk : Bool
  resp : Resp
deriving DecidableEq

/-- Fill processing of one status of the _close_spot response: book realized
PnL against the tracked average cost, reduce the tracked long, and account
the closing fee (which, unlike _close_perp, is booked for every filled
status, not only positive ones). -/
def closeSpotFillStep (cfg : RunnerCfg) (env : CloseSpotEnv)
    (st : Runner) (status : HLStatus) : Runner :=
  match status with
  | .filledS filledSz avgPx =>
    let st :=
      if filledSz > 0 ∧ st.szSpot > 0 then
        let useSz := min filledSz st.szSpot
        let entryAvg := if st.szSpot > 0 then st.costSpotUsd / st.szSpot else 0
        { st with
          realizedPnlSpot := st.realizedPnlSpot + (avgPx - entryAvg) * useSz,
          costSpotUsd := st.costSpotUsd - entryAvg * useSz,
          szSpot := st.szSpot - useSz }
      else st
    let wasMaker := anyResting env.resp
    let feeRate := if wasMaker then cfg.fees.spotMaker else cfg.fees.spotTaker
    { st with feeSpotUsd := st.feeSpotUsd + filledSz * avgPx * feeRate }
  | _ => st

/-- StrategyRunner._close_spot: sell the base balance at the bid, booking
realized PnL against the tracked average cost and a closing fee.  No venue
sync afterwards. -/
def closeSpot (cfg : RunnerCfg) (s : Runner) (env : CloseSpotEnv) :
    Runner × List Action :=
  match baseAmountOf env.balances cfg.syms.spotBase with
  | none => (s, [])
  | some amt =>
    if amt ≤ 0 then (s, [])
    else
      let quantum := quantumOf env.spotSizeDecimals
      let qty := quantizeBy amt quantum
      if qty ≤ 0 then (s, [])
      else
        let px := env.spotBid
        if env.placeOk then
          (env.resp.foldl (closeSpotFillStep cfg env) s,
           [.placeOrder .spotV .sell qty px cfg.strat.tif false false])
        else (s, [])

/-- Local tracker zeroing of the _await_flatten success branch: both legs
flat and no open orders, so sizes and cost bases are reset together and the
flatten timestamp recorded. -/
def flattenSync (s : Runner) (now : ℚ) : Runner :=
  { s with szPerp := 0, szSpot := 0, costPerpUsd := 0, costSpotUsd := 0,
           lastFlatTs := now }

/-- Environment of one _repair_hedge call. -/
structure RepairEnv where
  now : ℚ
  sziTimeout : ℚ
  perpBid : ℚ
  perpAsk : ℚ
  perpSizeDecimals : ℕ
  timeoutOk : Bool
  spotBid : ℚ
  spotAsk : ℚ
  spotBookOk : Bool
  spotOpens : List OpenOrder
  placeOk : Bool
  resp : Resp
deriving DecidableEq

/-- Fill processing of one status of the repair order response: add the fill
to the spot ledger, book the fee, commit the used notional to the limiter
(failures swallowed) and reduce the outstanding repair target, clamped at
zero. -/
def repairFillStep (cfg : RunnerCfg) (env : RepairEnv)
    (st : Runner) (status : HLStatus) : Runner :=
  match status with
  | .filledS filledSz avgPx =>
    if filledSz > 0 ∧ avgPx > 0 then
      let usedUsd := filledSz * avgPx
      let st := { st with
        szSpot := st.szSpot + filledSz,
        costSpotUsd := st.costSpotUsd + usedUsd,
        cumSpotUsd := st.cumSpotUsd + usedUsd }
      let spotIsMaker := anyResting env.resp
      let feeRate := if spotIsMaker then cfg.fees.spotMaker else cfg.fees.spotTaker
      let st := { st with feeSpotUsd := st.feeSpotUsd + usedUsd * feeRate }
      let st := { st with
        limiter := applyNLOrKeep cfg.caps st.limiter (cfg.syms.perpSymbol, usedUsd) }
      { st with repairTargetSz := max 0 (st.repairTargetSz - filledSz) }
    else st
  | _ => st

/-- StrategyRunner._repair_hedge: past the repair deadline, unwind any
venue-reported perp short with a reduce-only BUY and return to Idle in every
case; before the deadline, cancel stale spot opens once, then re-submit the
outstanding spot BUY, escalating to the repair time-in-force once the episode
age reaches the stage duration, reducing the target by any fill. -/
def repairHedge (cfg : RunnerCfg) (s : Runner) (env : RepairEnv) :
    Runner × List Action :=
  let timeoutS := repairTimeoutS cfg
  let stageS := repairStageS cfg
  if env.now - s.repairStartTs > timeoutS then
    let acts : List Action :=
      if env.timeoutOk then
        let szi := env.sziTimeout
        let shortQty := if szi < 0 then -szi else 0
        if shortQty > 0 then
          let bid := env.perpBid
          let ask := env.perpAsk
          let mid := if ask > 0 then (bid + ask) / 2 else bid
          let quantum := quantumOf env.perpSizeDecimals
          let qty := quantizeBy shortQty quantum
          if qty > 0 then
            let px := if ask > 0 then ask else mid
            [.placeOrder .perpV .buy qty px (repairTif cfg) true false]
          else []
        else []
      else []
    ({ s with repairActive := false }, acts)
  else
    if s.repairSide = "BUY_SPOT" then
      if env.spotBookOk then
        let ask := env.spotAsk
        let mid := if ask > 0 then (env.spotBid + ask) / 2 else env.spotBid
        let px := if ask > 0 then ask else mid
        let cancelActs : List Action :=
          if ¬ s.repairCancelDone then
            env.spotOpens.filterMap (fun o =>
              match o.oid with
              | some oid =>
                if o.symbol = cfg.syms.spotSymbol then
                  some (.cancelOrder .spotV oid)
                else none
              | none => none)
          else []
        let s1 := if ¬ s.repairCancelDone then { s with repairCancelDone := true } else s
        let ageS := env.now - s.repairStartTs
        let useTif := if ageS ≥ stageS then repairTif cfg else cfg.strat.tif
        if env.placeOk then
          let act : Action := .placeOrder .spotV .buy s1.repairTargetSz px useTif false false
          let s2 := env.resp.foldl (repairFillStep cfg env) s1
          let s3 := if s2.repairTargetSz ≤ 0 then { s2 with repairActive := false } else s2
          (s3, cancelActs ++ [act])
        else (s1, cancelActs)
      else (s, [])
    else (s, [])

/-- Environment of one _has_exposure call. -/
structure HasExpEnv where
  perpOk : Bool
  szi : ℚ
  perpSizeDecimals : ℕ
  spotOk : Bool
  spotBaseBal : ℚ
  spotSizeDecimals : ℕ
  opensOk : Bool
  spotOpens : List OpenOrder
  perpOpens : List OpenOrder
deriving DecidableEq

/-- StrategyRunner._has_exposure: venue position above one quantum or a
locally tracked size on either leg, or any open orders. -/
def hasExposure (s : Runner) (env : HasExpEnv) : Bool :=
  let perpActive :=
    if env.perpOk then
      decide (|env.szi| > quantumOf env.perpSizeDecimals) || decide (s.szPerp > 0)
    else decide (s.szPerp > 0)
  let spotActive :=
    if env.spotOk then
      decide (env.spotBaseBal > quantumOf env.spotSizeDecimals) || decide (s.szSpot > 0)
    else decide (s.szSpot > 0)
  let hasOpens :=
    if env.opensOk then
      decide (env.spotOpens.length > 0) || decide (env.perpOpens.length > 0)
    else false
  perpActive || spotActive || hasOpens

/-- Environment of one _risk_ok call. -/
structure RiskEnv where
  now : ℚ
  opensOk : Bool
  spotOpens : List OpenOrder
  perpOpens : List OpenOrder
deriving DecidableEq

/-- StrategyRunner._risk_ok: drawdown halt, order-rate limit, entry throttle,
open-order check (skipped on gateway failure), remaining budget against the
target notional, and the notional cap.  The rate limiter records its
timestamp as a side effect, so the updated state is returned. -/
def riskOk (cfg : RunnerCfg) (s : Runner) (env : RiskEnv) : Bool × Runner :=
  if dgHalted s.guard then (false, s)
  else
    let rl := allowRL cfg.maxReplacesPerMin env.now s.rlTimes
    let s1 := { s with rlTimes := rl.2 }
    if ¬ rl.1 then (false, s1)
    else if env.now - s1.lastEntryTs < minEntryIntervalS cfg then (false, s1)
    else
      let opensBlock :=
        if env.opensOk then
          env.spotOpens.length > 0 ∨ env.perpOpens.length > 0
        else False
      if opensBlock then (false, s1)
      else
        let remainingBudget := cfg.strat.targetUsdNotional - max s1.cumSpotUsd s1.cumPerpUsd
        if remainingBudget ≤ 0 then (false, s1)
        else if ¬ canAdd cfg.caps s1.limiter cfg.syms.perpSymbol remainingBudget then
          (false, s1)
        else (true, s1)

/-- Base balance parsed during alignment (defaults to 0 when the coin is not
in the balances list). -/
def baseActualOf (balances : List (String × ℚ)) (base : String) : ℚ :=
  match balances.find? (fun b => b.1 = base) with
  | some b => b.2
  | none => 0

/-- Environment of the alignment part of pnl_logging. -/
structure AlignEnv where
  perpOk : Bool
  perpSizeDecimals : ℕ
  sziActual : ℚ
  entryPxActual : Option ℚ
  spotOk : Bool
  spotSizeDecimals : ℕ
  balances : List (String × ℚ)
deriving DecidableEq

/-- Environment of one pnl_logging call. -/
structure PnlEnv where
  align : AlignEnv
  bookOk : Bool
  now : ℚ
deriving DecidableEq

/-- StrategyRunner.pnl_logging: the alignment step (observe, or force-correct
local sizes from venue truth when the divergence reaches the configured
number of quanta), followed by throttled PnL logging (the only state change
of the logging part is the log timestamp). -/
def pnlLogging (cfg : RunnerCfg) (s : Runner) (env : PnlEnv) : Runner :=
  let s1 :=
    if cfg.alignEnabled then
      let perpQuantum := quantumOf env.align.perpSizeDecimals
      let venuePerpAbs : Option ℚ :=
        if env.align.perpOk then
          some (if env.align.sziActual < 0 then -env.align.sziActual
                else if env.align.sziActual > 0 then env.align.sziActual else 0)
        else none
      let perpDiffQuanta : ℚ :=
        match venuePerpAbs with
        | some v => if perpQuantum > 0 then |s.szPerp - v| / perpQuantum else 0
        | none => 0
      let entryPxActual := if env.align.perpOk then env.align.entryPxActual else none
      let spotQuantum := quantumOf env.align.spotSizeDecimals
      let baseActual : Option ℚ :=
        if env.align.spotOk then
          some (baseActualOf env.align.balances cfg.syms.spotBase)
        else none
      let spotDiffQuanta : ℚ :=
        match baseActual with
        | some b => if spotQuantum > 0 then |s.szSpot - b| / spotQuantum else 0
        | none => 0
      if cfg.alignMode = "force" then
        let sP :=
          match venuePerpAbs with
          | some v =>
            if perpDiffQuanta ≥ cfg.alignMinDiffQuanta then
              let sP := { s with szPerp := v }
              match entryPxActual with
              | some px =>
                if sP.szPerp > 0 then { sP with costPerpUsd := px * sP.szPerp }
                else if sP.szPerp = 0 then { sP with costPerpUsd := 0 }
                else sP
              | none => if sP.szPerp = 0 then { sP with costPerpUsd := 0 } else sP
            else s
          | none => s
        match baseActual with
        | some b =>
          if spotDiffQuanta ≥ cfg.alignMinDiffQuanta then
            let sS := { sP with szSpot := b }
            if sS.szSpot = 0 then { sS with costSpotUsd := 0 } else sS
          else sP
        | none => sP
      else s
    else s
  if env.bookOk then
    if env.now - s1.lastPnlLogTs ≥ 60 then { s1 with lastPnlLogTs := env.now } else s1
  else s1

/-- Environment of one _cancel_all call. -/
structure CancelAllEnv where
  spotOpens : List OpenOrder
  perpOpens : List OpenOrder
deriving DecidableEq

/-- StrategyRunner._cancel_all: cancel every open order carrying an id on
both venues. -/
def cancelAll (env : CancelAllEnv) : List Action :=
  (env.spotOpens.filterMap fun o => o.oid.map (fun oid => Action.cancelOrder .spotV oid)) ++
  (env.perpOpens.filterMap fun o => o.oid.map (fun oid => Action.cancelOrder .perpV oid))

/-- Entry bookkeeping of StrategyRunner.step on an evaluate_and_place result:
when entered, update cumulative exposure, sizes and cost bases from the
reported fills, book entry fees by the resting-implies-maker heuristic,
commit the used notional to the limiter (failures swallowed), stamp the entry
time, remember the resting spot oid, and activate hedge repair when the perp
leg filled while the spot leg did not (cancelling the resting spot entry
order and any other spot opens). -/
def entryBookkeeping (cfg : RunnerCfg) (s : Runner) (res : EvalResult)
    (now : ℚ) (entryOpens : List OpenOrder) : Runner × List Action :=
  if res.entered then
    let fillActs : List Action :=
      if res.spotFilledUsd > 0 ∨ res.perpFilledUsd > 0 then [.appendEvent "fee"] else []
    let s :=
      if res.spotFilledUsd > 0 ∨ res.perpFilledUsd > 0 then
        let s := { s with
          cumSpotUsd := s.cumSpotUsd + res.spotFilledUsd,
          cumPerpUsd := s.cumPerpUsd + res.perpFilledUsd,
          szSpot := s.szSpot + res.spotFilledSz,
          szPerp := s.szPerp + res.perpFilledSz }
        let s :=
          if res.spotFilledSz > 0 ∧ res.spotFilledAvg > 0 then
            { s with costSpotUsd := s.costSpotUsd + res.spotFilledSz * res.spotFilledAvg }
          else s
        let s :=
          if res.perpFilledSz > 0 ∧ res.perpFilledAvg > 0 then
            { s with costPerpUsd := s.costPerpUsd + res.perpFilledSz * res.perpFilledAvg }
          else s
        let spotIsMaker := anyResting (res.spotOrder.getD [])
        let perpIsMaker := anyResting (res.perpOrder.getD [])
        let spotFee := res.spotFilledUsd * (if spotIsMaker then cfg.fees.spotMaker else cfg.fees.spotTaker)
        let perpFee := res.perpFilledUsd * (if perpIsMaker then cfg.fees.perpMaker else cfg.fees.perpTaker)
        let s := if spotFee > 0 then { s with feeSpotUsd := s.feeSpotUsd + spotFee } else s
        let s := if perpFee > 0 then { s with feePerpUsd := s.feePerpUsd + perpFee } else s
        let usedDelta := max res.spotFilledUsd res.perpFilledUsd
        if usedDelta > 0 then
          { s with limiter := applyNLOrKeep cfg.caps s.limiter (cfg.syms.perpSymbol, usedDelta) }
        else s
      else s
    let s := { s with lastEntryTs := now, exitInProgress := false }
    let s :=
      match res.spotOid with
      | some oid => { s with lastSpotEntryOid := some oid }
      | none => s
    let act2 : List Action := fillActs ++ [.appendEvent "entry"]
    if res.perpFilledSz > 0 ∧ res.spotFilledSz = 0 then
      let s := { s with
        repairActive := true, repairStartTs := now,
        repairTargetSz := res.perpFilledSz, repairSide := "BUY_SPOT",
        repairCancelDone := false }
      let c1 : List Action :=
        match s.lastSpotEntryOid with
        | some oid => [.cancelOrder .spotV oid]
        | none => []
      let c2 : List Action :=
        entryOpens.filterMap fun o => o.oid.map (fun oid => Action.cancelOrder .spotV oid)
      (s, act2 ++ c1 ++ c2)
    else (s, act2)
  else (s, [])

/-- Environment of one StrategyRunner.step cycle: the answers every gateway
call of the cycle would produce. -/
structure StepEnv where
  now : ℚ
  pnl : PnlEnv
  hasExp : HasExpEnv
  exitCancel : CancelAllEnv
  exitClosePerp : ClosePerpEnv
  exitCloseSpot : CloseSpotEnv
  risk : RiskEnv
  strat : StratEnv
  entryOpens : List OpenOrder
  repair : RepairEnv
deriving DecidableEq

/-- StrategyRunner.step: compute the funding signal (skip the cycle when
unavailable), align and log PnL, run the exit branch under its cooldowns and
debounce, otherwise the entry branch gated by cooldowns and _risk_ok, then
drive the hedge-repair machine if it is active.  The evalCall trace marker
records the invocation of evaluate_and_place. -/
def stepFn (cfg : RunnerCfg) (s : Runner) (env : StepEnv) : Runner × List Action :=
  match computeExpectedFundingApr env.strat with
  | none => (s, [])
  | some apr =>
    let s := pnlLogging cfg s env.pnl
    if apr ≤ cfg.strat.exitThresholdApr then
      if ¬ hasExposure s env.hasExp then (s, [])
      else if s.lastEntryTs ≠ 0 ∧ env.now - s.lastEntryTs < enterExitCooldownS cfg then
        (s, [])
      else if s.lastExitTs ≠ 0 ∧ env.now - s.lastExitTs < enterExitCooldownS cfg then
        (s, [])
      else if ¬ s.exitInProgress ∨ env.now - s.lastExitTs > 5 then
        let s := { s with exitInProgress := true, lastExitTs := env.now }
        let cacts := cancelAll env.exitCancel
        let rp := closePerp cfg s env.exitClosePerp
        let rs := closeSpot cfg rp.1 env.exitCloseSpot
        (rs.1, cacts ++ rp.2 ++ rs.2)
      else (s, [])
    else
      if apr < cfg.strat.enterThresholdApr then (s, [])
      else if s.lastFlatTs ≠ 0 ∧ env.now - s.lastFlatTs < enterExitCooldownS cfg then
        (s, [])
      else if s.lastExitTs ≠ 0 ∧ env.now - s.lastExitTs < enterExitCooldownS cfg then
        (s, [])
      else
        let rk := riskOk cfg s env.risk
        if ¬ rk.1 then (rk.2, [])
        else
          let ev := evaluateAndPlace cfg.strat cfg.syms env.strat
          let eb := entryBookkeeping cfg rk.2 ev.1 env.now env.entryOpens
          let rr :=
            if eb.1.repairActive then repairHedge cfg eb.1 env.repair else (eb.1, [])
          (rr.1, Action.evalCall :: ev.2 ++ eb.2 ++ rr.2)

/-- One ledger-mutating operation of the control loop: an entry fill report
handed to the entry bookkeeping, a close fill on either leg, a repair step,
or the flatten zeroing. -/
inductive LedgerOp where
  | entryFill (res : EvalResult) (now : ℚ) (entryOpens : List OpenOrder)
  | closePerpOp (env : ClosePerpEnv)
  | closeSpotOp (env : CloseSpotEnv)
  | repairStep (env : RepairEnv)
  | flatten (now : ℚ)
deriving DecidableEq

/-- Apply one ledger-mutating operation to the runner state. -/
def applyLedgerOp (cfg : RunnerCfg) (s : Runner) (op : LedgerOp) : Runner :=
  match op with
  | .entryFill res now entryOpens => (entryBookkeeping cfg s res now entryOpens).1
  | .closePerpOp env => (closePerp cfg s env).1
  | .closeSpotOp env => (closeSpot cfg s env).1
  | .repairStep env => (repairHedge cfg s env).1
  | .flatten now => flattenSync s now

/-- Fill reports of the venue never carry a negative size; the entry
bookkeeping is the only operation that trusts the parsed spot size without a
positivity guard, so it is the only operation needing this hypothesis. -/
def entrySizesNonneg : LedgerOp → Prop
  | .entryFill res _ _ => 0 ≤ res.spotFilledSz
  | _ => True

/-! ## Concrete fixtures used by witnesses and counterexamples -/

/-- Strategy configuration used by concrete witnesses: enter at 0.10 APR,
exit at 0.01, target 100 USD, hedge ratio 1, one tick offset, Gtc, post
only. -/
def wCfg : StratCfg :=
  { enterThresholdApr := 1/10, exitThresholdApr := 1/100,
    targetUsdNotional := 100, hedgeRatio := 1,
    priceOffsetTicks := 1, tif := "Gtc", postOnly := true }

/-- Market symbols used by concrete witnesses. -/
def wSyms : MarketSyms :=
  { spotSymbol := "ASTER/USDT", perpSymbol := "ASTER",
    spotBase := "ASTER", spotQuote := some "USDT" }

/-- Gateway environment used by concrete witnesses: bid 10, ask 10.02, tick
0.01, two size decimals, 1000 USDT quote balance, funding 0.20, both legs
resting. -/
def wEnv : StratEnv :=
  { funding := some (1/5),
    spotL2 := [[10], [1002/100]], perpL2 := [[10], [1002/100]],
    spotMeta := { tick := 1/100, sizeDecimals := 2 },
    perpMeta := { tick := 1/100, sizeDecimals := 2 },
    balances := [("USDT", 1000)],
    spotResp := [.restingS 11], perpResp := [.restingS 22] }

/-- Runner configuration used by concrete witnesses and counterexamples:
defaults of the source config with zero fee rates and wide caps. -/
def wRunnerCfg : RunnerCfg :=
  { syms := wSyms, strat := wCfg,
    fees := { spotMaker := 0, spotTaker := 0, perpMaker := 0, perpTaker := 0 },
    caps := ⟨100000, 100000⟩,
    repriceIntervalMs := 800, hedgeRepairTimeoutMs := 5000,
    hedgeRepairStageMs := 1500, hedgeRepairTif := "Ioc",
    enterExitCooldownSCfg := 300, maxReplacesPerMin := 60,
    alignEnabled := false, alignMode := "log", alignMinDiffQuanta := 1 }

/-- Entry fill report of the C8 counterexample: the spot leg fills 1 unit at
10 and the perp leg fills 5 units at 10. -/
def cexEntryRes : EvalResult :=
  { apr := some (1/5), entered := true,
    spotFilledUsd := 10, perpFilledUsd := 50,
    spotFilledSz := 1, perpFilledSz := 5,
    spotFilledAvg := 10, perpFilledAvg := 10,
    spotOid := none, perpOid := none,
    spotOrder := some [.filledS 1 10], perpOrder := some [.filledS 5 10] }

/-- Close-perp environment of the C8 counterexample: the venue reports a
short of 5, the close order response shows a fill of only 2 units at 10, and
the post-close position read reports flat. -/
def cexCloseEnv : ClosePerpEnv :=
  { perpBid := 10, perpAsk := 10, szi1 := -5, perpSizeDecimals := 2,
    placeOk := true, resp := [.filledS 2 10],
    sziDetail := -5, entryDetail := some 10, szi3 := 0 }

/-- Spot-leg ledger invariant: non-negative tracked size, and zero tracked
size implies zero tracked cost basis. -/
def SpotInv (s : Runner) : Prop :=
  0 ≤ s.szSpot ∧ (s.szSpot = 0 → s.costSpotUsd = 0)

/-- Runner state of the repair counterexample: an active BUY_SPOT repair
episode begun at time 1000 with 5 perp units short and 40 USD of perp
exposure booked. -/
def cexRepairRunner : Runner :=
  { initRunner 50 with
    cumPerpUsd := 40, costPerpUsd := 50, szPerp := 5,
    lastEntryTs := 1000,
    repairActive := true, repairStartTs := 1000, repairTargetSz := 5,
    repairSide := "BUY_SPOT", repairCancelDone := true,
    lastSpotEntryOid := some 11 }

/-- Repair environment of the C3 counterexample: well past the repair
deadline, every gateway call succeeds, and the venue reports a short of
0.005 units, below the 0.01 size quantum. -/
def cexRepairEnv : RepairEnv :=
  { now := 1010, sziTimeout := -(1/200), perpBid := 10, perpAsk := 1002/100,
    perpSizeDecimals := 2, timeoutOk := true,
    spotBid := 10, spotAsk := 1002/100, spotBookOk := true,
    spotOpens := [], placeOk := true, resp := [] }

/-- Step environment of the C4 counterexample: one control-loop cycle at time
1002, two seconds after the entry that activated the still-active repair
episode of cexRepairRunner; funding is high, no open orders, the rate
limiter and caps have headroom. -/
def c4StepEnv : StepEnv :=
  { now := 1002,
    pnl := { align := { perpOk := true, perpSizeDecimals := 2, sziActual := -5,
                        entryPxActual := some 10, spotOk := true,
                        spotSizeDecimals := 2, balances := [] },
             bookOk := true, now := 1002 },
    hasExp := { perpOk := true, szi := -5, perpSizeDecimals := 2, spotOk := true,
                spotBaseBal := 0, spotSizeDecimals := 2, opensOk := true,
                spotOpens := [], perpOpens := [] },
    exitCancel := { spotOpens := [], perpOpens := [] },
    exitClosePerp := cexCloseEnv,
    exitCloseSpot := { balances := [], spotSizeDecimals := 2, spotBid := 10,
                       placeOk := true, resp := [] },
    risk := { now := 1002, opensOk := true, spotOpens := [], perpOpens := [] },
    strat := wEnv,
    entryOpens := [],
    repair := { cexRepairEnv with now := 1002 } }

/-- Reachability invariant of the NotionalLimiter dict: values are
non-negative, each value is zero or within the per-symbol cap, and a
non-empty dict has a total within the portfolio cap. -/
def NLInv (caps : NLCaps) (m : NMap) : Prop :=
  (∀ k, 0 ≤ nlookup m k) ∧
  (∀ k, nlookup m k = 0 ∨ nlookup m k ≤ caps.perSymbolCap) ∧
  (m = [] ∨ ntotal m ≤ caps.portfolioCap)

/-- Count of stored timestamps lying in the closed 60-second window starting
at a. -/
def cWin (a : ℚ) (ts : List ℚ) : ℕ :=
  ts.countP (fun t => decide (a ≤ t) && decide (t ≤ a + 60))

/-! ## Theorems -/

theorem nlookup_nupdate_self (m : NMap) (k : String) (v : ℚ) :
    nlookup (nupdate m k v) k = v := by
  induction m with
  | nil => simp [nupdate, nlookup]
  | cons p rest ih =>
    obtain ⟨k0, w⟩ := p
    simp only [nupdate]
    by_cases h : k0 = k
    · simp [h, nlookup]
    · simp only [if_neg h, nlookup]
      exact ih

theorem nlookup_nupdate_ne (m : NMap) (k k' : String) (v : ℚ)
    (h : k' ≠ k) : nlookup (nupdate m k v) k' = nlookup m k' := by
  induction m with
  | nil =>
    simp only [nupdate, nlookup]
    rw [if_neg (Ne.symm h)]
  | cons p rest ih =>
    obtain ⟨k0, w⟩ := p
    simp only [nupdate]
    by_cases h0 : k0 = k
    · subst h0
      simp only [nlookup]
      rw [if_neg (Ne.symm h), if_neg (Ne.symm h)]
    · simp only [if_neg h0, nlookup]
      by_cases h1 : k0 = k'
      · rw [if_pos h1, if_pos h1]
      · rw [if_neg h1, if_neg h1]
        exact ih

theorem ntotal_nupdate (m : NMap) (k : String) (v : ℚ) :
    ntotal (nupdate m k v) = ntotal m - nlookup m k + v := by
  induction m with
  | nil => simp [nupdate, ntotal, nlookup]
  | cons p rest ih =>
    obtain ⟨k0, w⟩ := p
    simp only [nupdate]
    by_cases h : k0 = k
    · simp only [if_pos h, ntotal, nlookup, List.map_cons, List.sum_cons, if_pos h]
      ring
    · simp only [if_neg h, ntotal, nlookup, List.map_cons, List.sum_cons, if_neg h]
      have := ih
      simp only [ntotal] at this
      rw [this]
      ring

theorem applyNL_success_bounds (caps : NLCaps) (m : NMap) (symbol : String)
    (deltaUsd : ℚ) (m' : NMap) (hinv : NLInv caps m)
    (h : applyNL caps m symbol deltaUsd = some m') :
    (∀ k, 0 ≤ nlookup m' k ∧ nlookup m' k ≤ caps.perSymbolCap) ∧
    ntotal m' ≤ caps.portfolioCap := by
  obtain ⟨hpos, hcap, htot⟩ := hinv
  have hca : canAdd caps m symbol deltaUsd = true := by
    by_contra hc
    rw [Bool.not_eq_true] at hc
    unfold applyNL at h
    rw [hc] at h
    simp at h
  have hdec : (if nlookup m symbol + deltaUsd < 0 then (0 : ℚ)
        else nlookup m symbol + deltaUsd) ≤ caps.perSymbolCap ∧
      (if ntotal m + deltaUsd < 0 then (0 : ℚ)
        else ntotal m + deltaUsd) ≤ caps.portfolioCap := by
    have h2 := hca
    unfold canAdd at h2
    simpa using h2
  have hm' : m' = nupdate m symbol
      (if nlookup m symbol + deltaUsd < 0 then 0 else nlookup m symbol + deltaUsd) := by
    unfold applyNL at h
    rw [hca] at h
    rw [if_pos rfl] at h
    exact (Option.some.inj h).symm
  have hns0 : (0 : ℚ) ≤ if nlookup m symbol + deltaUsd < 0 then 0
      else nlookup m symbol + deltaUsd := by
    split
    · exact le_rfl
    · next hlt => exact not_lt.mp hlt
  have hpt0 : (0 : ℚ) ≤ if ntotal m + deltaUsd < 0 then 0
      else ntotal m + deltaUsd := by
    split
    · exact le_rfl
    · next hlt => exact not_lt.mp hlt
  have hperCap : 0 ≤ caps.perSymbolCap := le_trans hns0 hdec.1
  have hportCap : 0 ≤ caps.portfolioCap := le_trans hpt0 hdec.2
  constructor
  · intro k
    by_cases hk : k = symbol
    · subst hk
      rw [hm', nlookup_nupdate_self]
      exact ⟨hns0, hdec.1⟩
    · rw [hm', nlookup_nupdate_ne m symbol k _ hk]
      refine ⟨hpos k, ?_⟩
      rcases hcap k with h0 | hle
      · rw [h0]
        exact hperCap
      · exact hle
  · rw [hm', ntotal_nupdate]
    by_cases hneg : nlookup m symbol + deltaUsd < 0
    · rw [if_pos hneg]
      have hcur0 : 0 ≤ nlookup m symbol := hpos symbol
      rcases htot with hnil | hle
      · subst hnil
        simp only [nlookup, ntotal, List.map_nil, List.sum_nil]
        linarith
      · linarith
    · rw [if_neg hneg]
      have h3 : ntotal m - nlookup m symbol + (nlookup m symbol + deltaUsd)
          = ntotal m + deltaUsd := by ring
      rw [h3]
      by_cases hptneg : ntotal m + deltaUsd < 0
      · linarith
      · have h4 := hdec.2
        rw [if_neg hptneg] at h4
        exact h4

theorem NLInv_empty (caps : NLCaps) : NLInv caps [] := by
  refine ⟨fun k => le_rfl, fun k => Or.inl rfl, Or.inl rfl⟩

theorem NLInv_applyNLOrKeep (caps : NLCaps) (m : NMap) (op : String × ℚ)
    (hinv : NLInv caps m) : NLInv caps (applyNLOrKeep caps m op) := by
  unfold applyNLOrKeep
  cases hap : applyNL caps m op.1 op.2 with
  | none => exact hinv
  | some m' =>
    have hb := applyNL_success_bounds caps m op.1 op.2 m' hinv hap
    exact ⟨fun k => (hb.1 k).1, fun k => Or.inr (hb.1 k).2, Or.inr hb.2⟩

theorem NLInv_runNL (caps : NLCaps) (ops : List (String × ℚ)) :
    NLInv caps (runNL caps ops) := by
  unfold runNL
  suffices h : ∀ m : NMap, NLInv caps m →
      NLInv caps (ops.foldl (applyNLOrKeep caps) m) by
    exact h [] (NLInv_empty caps)
  induction ops with
  | nil => intro m hm; exact hm
  | cons op rest ih =>
    intro m hm
    exact ih _ (NLInv_applyNLOrKeep caps m op hm)

/-- C5: along any sequence of NotionalLimiter.apply calls from an empty dict,
every successful apply leaves all per-symbol totals non-negative and within
the per-symbol cap and the portfolio total within the portfolio cap; and
whenever can_add is false, apply raises (returns none) without mutating the
dict. -/
theorem notional_limiter_caps (caps : NLCaps) (ops : List (String × ℚ))
    (symbol : String) (deltaUsd : ℚ) (m' : NMap) :
    (applyNL caps (runNL caps ops) symbol deltaUsd = some m' →
      (∀ k, 0 ≤ nlookup m' k ∧ nlookup m' k ≤ caps.perSymbolCap) ∧
      ntotal m' ≤ caps.portfolioCap) ∧
    (canAdd caps (runNL caps ops) symbol deltaUsd = false →
      applyNL caps (runNL caps ops) symbol deltaUsd = none ∧
      applyNLOrKeep caps (runNL caps ops) (symbol, deltaUsd) = runNL caps ops) := by
  constructor
  · intro h
    exact applyNL_success_bounds caps (runNL caps ops) symbol deltaUsd m'
      (NLInv_runNL caps ops) h
  · intro h
    have hnone : applyNL caps (runNL caps ops) symbol deltaUsd = none := by
      simp [applyNL, h]
    exact ⟨hnone, by simp [applyNLOrKeep, hnone]⟩

/-- Witness for C5: caps 5 per symbol and 10 portfolio, one applied delta of
3 on symbol A, then a successful apply of 1 (totals within caps) and a
rejected apply of 100 (raises, dict unchanged). -/
theorem notional_limiter_caps_witness :
    (0 ≤ nlookup [("A", 4)] "A" ∧ nlookup [("A", 4)] "A" ≤ (5 : ℚ)) ∧
    ntotal [("A", 4)] ≤ (10 : ℚ) ∧
    applyNL ⟨5, 10⟩ (runNL ⟨5, 10⟩ [("A", 3)]) "A" 100 = none := by
  have h1 := notional_limiter_caps ⟨5, 10⟩ [("A", 3)] "A" 1 [("A", 4)]
  have h2 := notional_limiter_caps ⟨5, 10⟩ [("A", 3)] "A" 100 []
  have hb := h1.1 (by norm_num [applyNL, runNL, applyNLOrKeep, canAdd,
    nlookup, nupdate, ntotal])
  exact ⟨⟨(hb.1 "A").1, (hb.1 "A").2⟩, hb.2,
    (h2.2 (by norm_num [runNL, applyNLOrKeep, applyNL, canAdd,
      nlookup, nupdate, ntotal])).1⟩

theorem updateEquity_halted_mono (g : DGuard) (e : ℚ)
    (h : g.haltedFlag = true) : (updateEquity g e).haltedFlag = true := by
  unfold updateEquity
  dsimp only
  split <;> simp [h]

theorem updateEquity_peak_mono (g : DGuard) (e : ℚ) :
    g.peak ≤ (updateEquity g e).peak := by
  unfold updateEquity
  dsimp only
  split
  · next h => linarith
  · exact le_rfl

theorem foldl_updateEquity_halted (es : List ℚ) (g : DGuard)
    (h : g.haltedFlag = true) : (es.foldl updateEquity g).haltedFlag = true := by
  induction es generalizing g with
  | nil => exact h
  | cons e rest ih => exact ih _ (updateEquity_halted_mono g e h)

theorem foldl_updateEquity_peak (es : List ℚ) (g : DGuard) :
    g.peak ≤ (es.foldl updateEquity g).peak := by
  induction es generalizing g with
  | nil => exact le_rfl
  | cons e rest ih => exact le_trans (updateEquity_peak_mono g e) (ih _)

/-- C7: once DrawdownGuard.halted() is true it stays true across every
subsequent update_equity call, including equity values above the prior peak,
and the internal peak is monotonically non-decreasing along any sequence of
update_equity calls. -/
theorem drawdown_halt_terminal_peak_mono (g : DGuard) (es : List ℚ) (e : ℚ) :
    (dgHalted g = true → dgHalted (es.foldl updateEquity g) = true) ∧
    g.peak ≤ (updateEquity g e).peak ∧
    g.peak ≤ (es.foldl updateEquity g).peak := by
  refine ⟨fun h => foldl_updateEquity_halted es g h, updateEquity_peak_mono g e,
    foldl_updateEquity_peak es g⟩

/-- Witness for C7: the halted flag survives an equity recovery above the
prior peak (path 1000, 949, 2000 with max drawdown 50). -/
theorem drawdown_halt_terminal_peak_mono_witness :
    dgHalted ([(949 : ℚ), 2000].foldl updateEquity
      { maxDrawdownUsd := 50, peak := 1000, haltedFlag := true }) = true ∧
    (1000 : ℚ) ≤ ([(949 : ℚ), 2000].foldl updateEquity
      { maxDrawdownUsd := 50, peak := 1000, haltedFlag := true }).peak := by
  have h := drawdown_halt_terminal_peak_mono
    { maxDrawdownUsd := 50, peak := 1000, haltedFlag := true } [(949 : ℚ), 2000] 949
  exact ⟨h.1 (by decide), h.2.2⟩

theorem runRL_cons (maxA : ℕ) (ts : List ℚ) (now : ℚ) (rest : List ℚ) :
    runRL maxA ts (now :: rest) =
      ((now, (allowRL maxA now ts).1) :: (runRL maxA (allowRL maxA now ts).2 rest).1,
       (runRL maxA (allowRL maxA now ts).2 rest).2) := rfl

theorem allowRL_of_lt (maxA : ℕ) (now : ℚ) (ts : List ℚ)
    (h : (ts.filter fun t => now - 60 ≤ t).length < maxA) :
    allowRL maxA now ts = (true, (ts.filter fun t => now - 60 ≤ t) ++ [now]) := by
  unfold allowRL
  rw [if_pos h]

theorem allowRL_of_ge (maxA : ℕ) (now : ℚ) (ts : List ℚ)
    (h : ¬ (ts.filter fun t => now - 60 ≤ t).length < maxA) :
    allowRL maxA now ts = (false, ts.filter fun t => now - 60 ≤ t) := by
  unfold allowRL
  rw [if_neg h]

theorem countTrueWin_cons (r : ℚ × Bool) (rs : List (ℚ × Bool)) (a : ℚ) :
    countTrueWin (r :: rs) a =
      countTrueWin rs a + (if r.2 ∧ a ≤ r.1 ∧ r.1 ≤ a + 60 then 1 else 0) := by
  simp only [countTrueWin, List.countP_cons]
  by_cases h1 : r.2 <;> by_cases h2 : a ≤ r.1 <;> by_cases h3 : r.1 ≤ a + 60 <;>
    simp [h1, h2, h3]

theorem cWin_append_single (a now : ℚ) (xs : List ℚ) :
    cWin a (xs ++ [now]) = cWin a xs + (if a ≤ now ∧ now ≤ a + 60 then 1 else 0) := by
  simp only [cWin, List.countP_append, List.countP_cons, List.countP_nil]
  by_cases h1 : a ≤ now <;> by_cases h2 : now ≤ a + 60 <;> simp [h1, h2]

theorem cWin_filter (a now : ℚ) (hle : now ≤ a + 60) (ts : List ℚ) :
    cWin a (ts.filter fun t => now - 60 ≤ t) = cWin a ts := by
  induction ts with
  | nil => rfl
  | cons t rest ih =>
    simp only [List.filter_cons]
    by_cases hkeep : now - 60 ≤ t
    · rw [if_pos (by simpa using hkeep)]
      simp only [cWin, List.countP_cons]
      simp only [cWin] at ih
      omega
    · rw [if_neg (by simpa using hkeep)]
      have hnwin : (decide (a ≤ t) && decide (t ≤ a + 60)) = false := by
        by_cases h1 : a ≤ t
        · have h2 : ¬ t ≤ a + 60 := fun h2 => hkeep (by linarith)
          simp [h2]
        · simp [h1]
      rw [ih]
      simp only [cWin, List.countP_cons, hnwin]
      simp

theorem cWin_le_length (a : ℚ) (ts : List ℚ) : cWin a ts ≤ ts.length :=
  List.countP_le_length _

theorem countTrueWin_zero_of_late (maxA : ℕ) (a : ℚ) (calls : List ℚ) :
    (∀ t ∈ calls, a + 60 < t) →
    ∀ ts, countTrueWin (runRL maxA ts calls).1 a = 0 := by
  induction calls with
  | nil => intro _ ts; rfl
  | cons now rest ih =>
    intro hlate ts
    rw [runRL_cons, countTrueWin_cons]
    have hnow : a + 60 < now := hlate now (List.mem_cons_self now rest)
    rw [ih (fun t ht => hlate t (List.mem_cons_of_mem now ht)) _]
    rw [if_neg (fun hc => absurd hc.2.2 (not_le.mpr hnow))]

theorem runRL_window_bound_aux (maxA : ℕ) (a : ℚ) (calls : List ℚ) :
    calls.Pairwise (· ≤ ·) →
    ∀ ts, countTrueWin (runRL maxA ts calls).1 a + min maxA (cWin a ts) ≤ maxA := by
  induction calls with
  | nil =>
    intro _ ts
    have h := Nat.min_le_left maxA (cWin a ts)
    simp only [runRL, countTrueWin, List.countP_nil]
    omega
  | cons now rest ih =>
    intro hsorted ts
    rw [List.pairwise_cons] at hsorted
    obtain ⟨hhead, hrest⟩ := hsorted
    by_cases hlate : a + 60 < now
    · rw [countTrueWin_zero_of_late maxA a (now :: rest)
        (by
          intro t ht
          rcases List.mem_cons.mp ht with h | h
          · exact h ▸ hlate
          · exact lt_of_lt_of_le hlate (hhead t h)) ts]
      have h := Nat.min_le_left maxA (cWin a ts)
      omega
    · push_neg at hlate
      rw [runRL_cons]
      by_cases hlen : (ts.filter fun t => now - 60 ≤ t).length < maxA
      · rw [allowRL_of_lt maxA now ts hlen]
        dsimp only
        rw [countTrueWin_cons]
        dsimp only
        have hcw : cWin a (ts.filter fun t => now - 60 ≤ t) = cWin a ts :=
          cWin_filter a now hlate ts
        have hcwlt : cWin a ts < maxA := by
          rw [← hcw]
          exact lt_of_le_of_lt (cWin_le_length a _) hlen
        have hI := ih hrest ((ts.filter fun t => now - 60 ≤ t) ++ [now])
        rw [cWin_append_single, hcw] at hI
        by_cases hwin : a ≤ now
        · rw [if_pos ⟨hwin, hlate⟩] at hI
          rw [if_pos ⟨rfl, hwin, hlate⟩]
          omega
        · rw [if_neg (fun hc => hwin hc.1)] at hI
          rw [if_neg (fun hc => hwin hc.2.1)]
          omega
      · rw [allowRL_of_ge maxA now ts hlen]
        dsimp only
        rw [countTrueWin_cons]
        dsimp only
        have hcw : cWin a (ts.filter fun t => now - 60 ≤ t) = cWin a ts :=
          cWin_filter a now hlate ts
        have hI := ih hrest (ts.filter fun t => now - 60 ≤ t)
        rw [hcw] at hI
        rw [if_neg (fun hc => by simpa using hc.1)]
        omega

/-- C6 (amended): for calls at non-decreasing wall-clock times, any rolling
closed 60-second interval contains at most max_actions_per_min calls that
returned true; and a call that returns false records no timestamp, leaving
the stored window equal to the pruned input window. -/
theorem order_rate_limiter_window_bound (maxA : ℕ) (calls : List ℚ)
    (hsorted : calls.Pairwise (· ≤ ·)) (a : ℚ) (now : ℚ) (ts : List ℚ) :
    countTrueWin (runRL maxA [] calls).1 a ≤ maxA ∧
    ((allowRL maxA now ts).1 = false →
      (allowRL maxA now ts).2 = ts.filter fun t => now - 60 ≤ t) := by
  constructor
  · have h := runRL_window_bound_aux maxA a calls hsorted []
    simpa [cWin] using h
  · intro hfalse
    by_cases hlen : (ts.filter fun t => now - 60 ≤ t).length < maxA
    · rw [allowRL_of_lt maxA now ts hlen] at hfalse
      simp at hfalse
    · rw [allowRL_of_ge maxA now ts hlen]

/-- Witness for C6: ceiling 2, sorted call times 0, 10, 30, 70; the window at
0 admits only the first two calls, and a rejected call leaves the stored
window pruned but unextended. -/
theorem order_rate_limiter_window_bound_witness :
    countTrueWin (runRL 2 [] [0, 10, 30, 70]).1 0 ≤ 2 ∧
    ((allowRL 2 30 [0, 10]).1 = false →
      (allowRL 2 30 [0, 10]).2 = [0, 10].filter fun t => (30 : ℚ) - 60 ≤ t) := by
  have h := order_rate_limiter_window_bound 2 [0, 10, 30, 70]
    (by norm_num) 0 30 [0, 10]
  exact h

/-- Counterexample for C6 as stated: at arbitrary (non-monotone) call times
the rolling-window bound fails.  With ceiling 2 and calls at times 100, 100,
161, 160, all four calls are admitted and three of them lie in the closed
window starting at time 100. -/
theorem order_rate_limiter_arbitrary_times_cex :
    2 < countTrueWin (runRL 2 [] [100, 100, 161, 160]).1 100 := by
  norm_num [runRL, allowRL, countTrueWin, List.countP_cons]

/-- C9: with post_only configured, for every book with 0 < best bid < best ask
and every non-negative tick offset, _price_for_side never crosses the
opposing side: the BUY price is strictly below the best ask and the SELL
price strictly above the best bid. -/
theorem price_for_side_passive (cfg : StratCfg) (meta : SymbolMeta) (l2 : L2)
    (offset : ℤ) (hpo : cfg.postOnly = true)
    (hb : 0 < (bestBidAsk l2).1) (hba : (bestBidAsk l2).1 < (bestBidAsk l2).2)
    (hoff : 0 ≤ offset) :
    priceForSide cfg meta l2 .buy offset < (bestBidAsk l2).2 ∧
    (bestBidAsk l2).1 < priceForSide cfg meta l2 .sell offset := by
  have hoffq : (0 : ℚ) ≤ (offset : ℚ) := by exact_mod_cast hoff
  constructor
  · unfold priceForSide
    dsimp only
    split
    · next h =>
      have hcross := h.2.2
      have htick : 0 < meta.tick := by
        by_contra hle
        push_neg at hle
        have : meta.tick * (offset : ℚ) ≤ 0 := mul_nonpos_of_nonpos_of_nonneg hle hoffq
        linarith
      exact max_lt hba (by linarith)
    · next h =>
      rw [hpo] at h
      push_neg at h
      have := h (by simp) (by linarith)
      linarith
  · unfold priceForSide
    dsimp only
    split
    · next h =>
      have hcross := h.2.2
      have htick : 0 < meta.tick := by
        by_contra hle
        push_neg at hle
        have : meta.tick * (offset : ℚ) ≤ 0 := mul_nonpos_of_nonpos_of_nonneg hle hoffq
        linarith
      exact lt_min (by linarith) (by linarith)
    · next h =>
      rw [hpo] at h
      push_neg at h
      have := h (by simp) hb
      linarith

/-- Witness for C9: book bid 10, ask 10.02, tick 0.01, offset 1. -/
theorem price_for_side_passive_witness :
    priceForSide
      { enterThresholdApr := 1/10, exitThresholdApr := 1/100,
        targetUsdNotional := 100, hedgeRatio := 1,
        priceOffsetTicks := 1, tif := "Gtc", postOnly := true }
      { tick := 1/100, sizeDecimals := 2 } [[10], [1002/100]] .buy 1 <
      (bestBidAsk [[10], [1002/100]]).2 ∧
    (bestBidAsk [[10], [1002/100]]).1 <
      priceForSide
        { enterThresholdApr := 1/10, exitThresholdApr := 1/100,
          targetUsdNotional := 100, hedgeRatio := 1,
          priceOffsetTicks := 1, tif := "Gtc", postOnly := true }
        { tick := 1/100, sizeDecimals := 2 } [[10], [1002/100]] .sell 1 :=
  price_for_side_passive _ _ _ 1 rfl (by norm_num [bestBidAsk])
    (by norm_num [bestBidAsk]) (by norm_num)

theorem kvGet_kvPut_self {α : Type} (s : KVStore α) (k : String) (v : α) :
    kvGet (kvPut s k v) k = some v := by
  induction s with
  | nil => simp [kvPut, kvGet]
  | cons p rest ih =>
    obtain ⟨k', w⟩ := p
    unfold kvPut
    by_cases h : k' = k
    · simp [h, kvGet]
    · simp only [if_neg h]
      unfold kvGet
      simp [h, ih]

theorem kvGet_kvPut_ne {α : Type} (s : KVStore α) (k k' : String) (v : α)
    (h : k' ≠ k) : kvGet (kvPut s k v) k' = kvGet s k' := by
  induction s with
  | nil =>
    simp only [kvPut, kvGet]
    rw [if_neg (Ne.symm h)]
  | cons p rest ih =>
    obtain ⟨k0, w⟩ := p
    simp only [kvPut]
    by_cases h0 : k0 = k
    · subst h0
      simp only [if_pos rfl, kvGet]
      rw [if_neg (Ne.symm h), if_neg (Ne.symm h)]
    · simp only [if_neg h0, kvGet]
      by_cases h1 : k0 = k'
      · rw [if_pos h1, if_pos h1]
      · rw [if_neg h1, if_neg h1]
        exact ih

theorem kvGet_runKV_fresh {α : Type} (ops : List (String × α)) (k : String)
    (hk : ∀ p ∈ ops, p.1 ≠ k) : kvGet (runKV ops) k = none := by
  suffices h : ∀ s : KVStore α, kvGet s k = none →
      kvGet (ops.foldl (fun s p => kvPut s p.1 p.2) s) k = none by
    exact h [] rfl
  induction ops with
  | nil => intro s hs; exact hs
  | cons p rest ih =>
    intro s hs
    simp only [List.foldl_cons]
    refine ih (fun q hq => hk q (List.mem_cons_of_mem p hq)) _ ?_
    rw [kvGet_kvPut_ne s p.1 k p.2 (Ne.symm (hk p (List.mem_cons_self p rest)))]
    exact hs

/-- C10: StateStore.put followed by StateStore.get on the same key returns
the stored value, a put overwrites any previous binding of its key without
touching other keys, and get of a key never written returns None.  The JSON
dumps/loads round trip is modelled as the identity on JSON-serializable
values. -/
theorem statestore_put_get {α : Type} (s : KVStore α) (k : String) (v : α)
    (ops : List (String × α)) (hk : ∀ p ∈ ops, p.1 ≠ k) :
    kvGet (kvPut s k v) k = some v ∧
    (∀ k', k' ≠ k → kvGet (kvPut s k v) k' = kvGet s k') ∧
    kvGet (runKV ops) k = none :=
  ⟨kvGet_kvPut_self s k v, fun k' h => kvGet_kvPut_ne s k k' v h,
   kvGet_runKV_fresh ops k hk⟩

/-- Witness for C10: two puts on the same key, the second wins; a store built
from a put on another key has no row for the queried key. -/
theorem statestore_put_get_witness :
    kvGet (kvPut (kvPut [] "exposure" (1 : ℤ)) "exposure" 2) "exposure" = some 2 ∧
    kvGet (runKV [("other", (7 : ℤ))]) "exposure" = none := by
  have h := statestore_put_get (kvPut [] "exposure" (1 : ℤ)) "exposure" 2
    [("other", (7 : ℤ))]
    (by intro p hp; simp only [List.mem_singleton] at hp; subst hp; decide)
  exact ⟨h.1, h.2.2⟩

/-- C1: whenever the spot leg's place_order response contains an error
status, evaluate_and_place issues no place_order call to the perp gateway
and the returned result has entered == false. -/
theorem entry_spot_error_no_perp (cfg : StratCfg) (syms : MarketSyms)
    (env : StratEnv) (herr : hasErrorStatus env.spotResp = true) :
    perpPlaceCount (evaluateAndPlace cfg syms env).2 = 0 ∧
    (evaluateAndPlace cfg syms env).1.entered = false := by
  simp only [evaluateAndPlace]
  repeat' split
  all_goals exact ⟨rfl, rfl⟩

/-- Witness for C1: the concrete entry environment whose spot response is a
single error status places no perp order and reports entered == false. -/
theorem entry_spot_error_no_perp_witness :
    perpPlaceCount
      (evaluateAndPlace wCfg wSyms
        { wEnv with spotResp := [.errorS "insufficient margin"] }).2 = 0 ∧
    (evaluateAndPlace wCfg wSyms
      { wEnv with spotResp := [.errorS "insufficient margin"] }).1.entered = false :=
  entry_spot_error_no_perp wCfg wSyms
    { wEnv with spotResp := [.errorS "insufficient margin"] } rfl

/-- C2: whenever the perp leg was actually placed, the spot response contains
a resting order id and the perp response contains an error status, exactly
one cancel_order call is issued to the spot gateway, targeting that resting
order id, and the returned result has entered == false. -/
theorem entry_perp_error_cancels_spot (cfg : StratCfg) (syms : MarketSyms)
    (env : StratEnv) (oid : ℤ)
    (hplaced : hasPerpPlace (evaluateAndPlace cfg syms env).2 = true)
    (hrest : findRestingOid env.spotResp = some oid)
    (herr : hasErrorStatus env.perpResp = true) :
    spotCancelOids (evaluateAndPlace cfg syms env).2 = [oid] ∧
    (evaluateAndPlace cfg syms env).1.entered = false := by
  revert hplaced
  simp only [evaluateAndPlace]
  repeat' split
  all_goals intro hplaced
  all_goals
    first
      | exact Bool.noConfusion hplaced
      | exact ⟨rfl, rfl⟩
      | simp_all [spotCancelOids, emptyEvalResult]

/-- Witness for C2: in the concrete entry environment with spot resting at
oid 11 and an erroring perp leg, the only spot cancel targets oid 11 and the
result is not entered. -/
theorem entry_perp_error_cancels_spot_witness :
    spotCancelOids
      (evaluateAndPlace wCfg wSyms
        { wEnv with perpResp := [.errorS "perp rejected"] }).2 = [11] ∧
    (evaluateAndPlace wCfg wSyms
      { wEnv with perpResp := [.errorS "perp rejected"] }).1.entered = false :=
  entry_perp_error_cancels_spot wCfg wSyms
    { wEnv with perpResp := [.errorS "perp rejected"] } 11
    (by
      norm_num [evaluateAndPlace, computeExpectedFundingApr, computeTargetQtys,
        bestBidAsk, quantizeSize, quantizeBy, quantumOf, truncQ, priceForSide,
        quoteBalanceOf, hasErrorStatus, findRestingOid, filledOf,
        emptyEvalResult, hasPerpPlace, perpPlaceCount, wCfg, wSyms, wEnv,
        List.find?])
    rfl rfl

theorem entryBookkeeping_szSpot (cfg : RunnerCfg) (s : Runner) (res : EvalResult)
    (now : ℚ) (opens : List OpenOrder) :
    (entryBookkeeping cfg s res now opens).1.szSpot =
      if res.entered ∧ (res.spotFilledUsd > 0 ∨ res.perpFilledUsd > 0)
      then s.szSpot + res.spotFilledSz else s.szSpot := by
  cases hoid : res.spotOid <;>
    by_cases hE : res.entered <;>
      by_cases hg : res.spotFilledUsd > 0 ∨ res.perpFilledUsd > 0 <;>
        simp [entryBookkeeping, hoid, hE, hg, apply_ite Runner.szSpot,
          apply_ite (Prod.fst : Runner × List Action → Runner)]

theorem entryBookkeeping_costSpot (cfg : RunnerCfg) (s : Runner) (res : EvalResult)
    (now : ℚ) (opens : List OpenOrder) :
    (entryBookkeeping cfg s res now opens).1.costSpotUsd =
      if res.entered ∧ (res.spotFilledUsd > 0 ∨ res.perpFilledUsd > 0) ∧
          res.spotFilledSz > 0 ∧ res.spotFilledAvg > 0
      then s.costSpotUsd + res.spotFilledSz * res.spotFilledAvg
      else s.costSpotUsd := by
  cases hoid : res.spotOid <;>
    by_cases hE : res.entered <;>
      by_cases hg : res.spotFilledUsd > 0 ∨ res.perpFilledUsd > 0 <;>
        by_cases hc : res.spotFilledSz > 0 ∧ res.spotFilledAvg > 0 <;>
          simp [entryBookkeeping, hoid, hE, hg, hc, apply_ite Runner.costSpotUsd,
            apply_ite (Prod.fst : Runner × List Action → Runner)]

theorem entryBookkeeping_spotInv (cfg : RunnerCfg) (s : Runner) (res : EvalResult)
    (now : ℚ) (opens : List OpenOrder) (hres : 0 ≤ res.spotFilledSz)
    (h : SpotInv s) :
    SpotInv (entryBookkeeping cfg s res now opens).1 := by
  obtain ⟨h1, h2⟩ := h
  have hsz := entryBookkeeping_szSpot cfg s res now opens
  have hcost := entryBookkeeping_costSpot cfg s res now opens
  constructor
  · rw [hsz]
    split
    · linarith
    · exact h1
  · intro h0
    rw [hsz] at h0
    rw [hcost]
    split
    · next hcond =>
      exfalso
      rw [if_pos ⟨hcond.1, hcond.2.1⟩] at h0
      have := hcond.2.2.1
      linarith
    · next hcond =>
      by_cases hgate : res.entered ∧ (res.spotFilledUsd > 0 ∨ res.perpFilledUsd > 0)
      · rw [if_pos hgate] at h0
        exact h2 (by linarith)
      · rw [if_neg hgate] at h0
        exact h2 h0

theorem foldl_spotInv {α : Type} (f : Runner → α → Runner)
    (hf : ∀ st x, SpotInv st → SpotInv (f st x)) :
    ∀ (l : List α) (st : Runner), SpotInv st → SpotInv (l.foldl f st) := by
  intro l
  induction l with
  | nil => intro st h; exact h
  | cons x rest ih => intro st h; exact ih _ (hf st x h)

theorem closeSpotFillStep_spotInv (cfg : RunnerCfg) (env : CloseSpotEnv)
    (st : Runner) (status : HLStatus) (h : SpotInv st) :
    SpotInv (closeSpotFillStep cfg env st status) := by
  cases status with
  | filledS filledSz avgPx =>
    unfold closeSpotFillStep
    dsimp only
    split
    · next hguard =>
      have hsz : (0 : ℚ) < st.szSpot := hguard.2
      constructor
      · dsimp only
        have hmle := min_le_right filledSz st.szSpot
        linarith
      · intro h0
        dsimp only at h0 ⊢
        have hmin : min filledSz st.szSpot = st.szSpot := by
          have hmle := min_le_right filledSz st.szSpot
          linarith
        rw [if_pos hsz, hmin, div_mul_cancel₀ st.costSpotUsd (ne_of_gt hsz)]
        exact sub_self _
    · exact h
  | restingS oid => exact h
  | errorS m => exact h
  | otherS => exact h

theorem closeSpot_spotInv (cfg : RunnerCfg) (s : Runner) (env : CloseSpotEnv)
    (h : SpotInv s) : SpotInv (closeSpot cfg s env).1 := by
  unfold closeSpot
  cases hb : baseAmountOf env.balances cfg.syms.spotBase with
  | none => exact h
  | some amt =>
    dsimp only
    split_ifs with h1 h2 h3 <;>
      first
        | exact h
        | exact foldl_spotInv _ (closeSpotFillStep_spotInv cfg env) env.resp s h

theorem closePerpFillStep_spot (cfg : RunnerCfg) (env : ClosePerpEnv)
    (st : Runner) (status : HLStatus) :
    (closePerpFillStep cfg env st status).szSpot = st.szSpot ∧
    (closePerpFillStep cfg env st status).costSpotUsd = st.costSpotUsd := by
  cases status <;> unfold closePerpFillStep <;> dsimp only <;> repeat' split
  all_goals exact ⟨rfl, rfl⟩

theorem closePerp_spotInv (cfg : RunnerCfg) (s : Runner) (env : ClosePerpEnv)
    (h : SpotInv s) : SpotInv (closePerp cfg s env).1 := by
  have hstep : ∀ st x, SpotInv st → SpotInv (closePerpFillStep cfg env st x) := by
    intro st x hst
    have heq := closePerpFillStep_spot cfg env st x
    constructor
    · rw [heq.1]; exact hst.1
    · intro h0
      rw [heq.1] at h0
      rw [heq.2]
      exact hst.2 h0
  have hfold : SpotInv (env.resp.foldl (closePerpFillStep cfg env) s) :=
    foldl_spotInv _ hstep env.resp s h
  unfold closePerp
  dsimp only
  repeat' split
  all_goals first | exact h | exact hfold

theorem repairFillStep_spotInv (cfg : RunnerCfg) (env : RepairEnv)
    (st : Runner) (status : HLStatus) (h : SpotInv st) :
    SpotInv (repairFillStep cfg env st status) := by
  cases status with
  | filledS filledSz avgPx =>
    unfold repairFillStep
    dsimp only
    split
    · next hguard =>
      refine ⟨add_nonneg h.1 (le_of_lt hguard.1), fun h0 => ?_⟩
      exfalso
      dsimp only at h0
      have hg := hguard.1
      have hp := h.1
      linarith
    · exact h
  | restingS oid => exact h
  | errorS m => exact h
  | otherS => exact h

set_option maxHeartbeats 1600000 in
theorem repairHedge_spotInv (cfg : RunnerCfg) (s : Runner) (env : RepairEnv)
    (h : SpotInv s) : SpotInv (repairHedge cfg s env).1 := by
  unfold repairHedge
  dsimp only
  repeat' split
  all_goals dsimp only
  all_goals
    first
    | exact h
    | exact foldl_spotInv _ (repairFillStep_spotInv cfg env) env.resp _ h

theorem flattenSync_spotInv (s : Runner) (now : ℚ) :
    SpotInv (flattenSync s now) :=
  ⟨le_refl 0, fun _ => rfl⟩

theorem applyLedgerOp_spotInv (cfg : RunnerCfg) (s : Runner) (op : LedgerOp)
    (hok : entrySizesNonneg op) (h : SpotInv s) :
    SpotInv (applyLedgerOp cfg s op) := by
  cases op with
  | entryFill res now opens => exact entryBookkeeping_spotInv cfg s res now opens hok h
  | closePerpOp env => exact closePerp_spotInv cfg s env h
  | closeSpotOp env => exact closeSpot_spotInv cfg s env h
  | repairStep env => exact repairHedge_spotInv cfg s env h
  | flatten now => exact flattenSync_spotInv s now

/-- C8 (amended): along every sequence of ledger-mutating operations from the
initial state whose entry fill reports carry non-negative spot sizes, the
SPOT leg satisfies the invariant: the tracked size stays non-negative and a
zero tracked size implies a zero tracked cost basis (Decimal arithmetic
modelled as exact rationals).  The corresponding perp-leg property fails, see
the counterexample: _close_perp syncs sz_perp to the venue-reported position
without adjusting cost_perp_usd. -/
theorem ledger_zero_size_zero_cost_spot (cfg : RunnerCfg) (maxDD : ℚ)
    (ops : List LedgerOp) (hok : ∀ op ∈ ops, entrySizesNonneg op) :
    0 ≤ (ops.foldl (applyLedgerOp cfg) (initRunner maxDD)).szSpot ∧
    ((ops.foldl (applyLedgerOp cfg) (initRunner maxDD)).szSpot = 0 →
      (ops.foldl (applyLedgerOp cfg) (initRunner maxDD)).costSpotUsd = 0) := by
  suffices hgen : ∀ (l : List LedgerOp) (st : Runner),
      (∀ op ∈ l, entrySizesNonneg op) → SpotInv st →
      SpotInv (l.foldl (applyLedgerOp cfg) st) by
    exact hgen ops (initRunner maxDD) hok ⟨le_refl 0, fun _ => rfl⟩
  intro l
  induction l with
  | nil => intro st _ h; exact h
  | cons op rest ih =>
    intro st hl h
    exact ih _ (fun o ho => hl o (List.mem_cons_of_mem op ho))
      (applyLedgerOp_spotInv cfg st op (hl op (List.mem_cons_self op rest)) h)

/-- Witness for C8 (amended): the concrete entry fill leaves a positive spot
size and the invariant conjunction holds. -/
theorem ledger_zero_size_zero_cost_spot_witness :
    0 ≤ ([LedgerOp.entryFill cexEntryRes 1000 []].foldl
      (applyLedgerOp wRunnerCfg) (initRunner 50)).szSpot ∧
    (([LedgerOp.entryFill cexEntryRes 1000 []].foldl
        (applyLedgerOp wRunnerCfg) (initRunner 50)).szSpot = 0 →
      ([LedgerOp.entryFill cexEntryRes 1000 []].foldl
        (applyLedgerOp wRunnerCfg) (initRunner 50)).costSpotUsd = 0) := by
  exact ledger_zero_size_zero_cost_spot wRunnerCfg 50
    [LedgerOp.entryFill cexEntryRes 1000 []]
    (by
      intro op hop
      simp only [List.mem_singleton] at hop
      subst hop
      show (0 : ℚ) ≤ cexEntryRes.spotFilledSz
      norm_num [cexEntryRes])

/-- Counterexample for C8 as stated: an entry fill of 5 perp units at 10
followed by a _close_perp in which the venue reports the short fully closed
while the fill report shows only 2 units leaves sz_perp == 0 with
cost_perp_usd == 30: the end-of-close venue sync overwrites the tracked size
without adjusting the perp cost basis. -/
theorem ledger_perp_sync_strands_cost_cex :
    ([LedgerOp.entryFill cexEntryRes 1000 [],
      LedgerOp.closePerpOp cexCloseEnv].foldl
        (applyLedgerOp wRunnerCfg) (initRunner 50)).szPerp = 0 ∧
    ¬ ([LedgerOp.entryFill cexEntryRes 1000 [],
        LedgerOp.closePerpOp cexCloseEnv].foldl
          (applyLedgerOp wRunnerCfg) (initRunner 50)).costPerpUsd = 0 := by
  norm_num [applyLedgerOp, entryBookkeeping, closePerp, closePerpFillStep,
    initRunner, cexEntryRes, cexCloseEnv, wRunnerCfg, wCfg, wSyms,
    quantumOf, quantizeBy, truncQ, anyResting, applyNLOrKeep, applyNL,
    canAdd, nlookup, nupdate, ntotal, List.foldl]

theorem quantumOf_pos (d : ℕ) : 0 < quantumOf d := by
  unfold quantumOf
  positivity

theorem quantizeBy_nonpos (x q : ℚ) (hq : 0 < q) (hx : x ≤ 0) :
    quantizeBy x q ≤ 0 := by
  unfold quantizeBy truncQ
  have hdiv : x / q ≤ 0 := by
    rw [div_eq_mul_inv]
    exact mul_nonpos_of_nonpos_of_nonneg hx (inv_nonneg.mpr hq.le)
  split
  · next hlt =>
    have hfl : (0 : ℤ) ≤ Int.floor (-(x / q)) :=
      Int.le_floor.mpr (by push_cast; linarith)
    have hc : ((-Int.floor (-(x / q)) : ℤ) : ℚ) ≤ 0 := by
      exact_mod_cast neg_nonpos.mpr hfl
    exact mul_nonpos_of_nonpos_of_nonneg hc hq.le
  · next hge =>
    have hfl : Int.floor (x / q) ≤ 0 := by
      have := Int.floor_le_floor hdiv
      simpa using this
    have hc : ((Int.floor (x / q) : ℤ) : ℚ) ≤ 0 := by exact_mod_cast hfl
    exact mul_nonpos_of_nonpos_of_nonneg hc hq.le

/-- C3 (amended): during an active repair episode whose age exceeds the
configured repair timeout, _repair_hedge always returns to Idle
(repair_active false), including when every gateway call fails; and when the
gateway calls succeed and the venue-reported short size floored to the venue
size quantum is positive, it attempts exactly one reduce-only BUY on the perp
gateway for that floored size at the ask (falling back to the bid when the
ask is empty) with the repair time-in-force. -/
theorem repair_timeout_unwind (cfg : RunnerCfg) (s : Runner) (env : RepairEnv)
    (hactive : s.repairActive = true)
    (htimeout : env.now - s.repairStartTs > repairTimeoutS cfg) :
    (repairHedge cfg s env).1.repairActive = false ∧
    (env.timeoutOk = true →
      0 < quantizeBy (if env.sziTimeout < 0 then -env.sziTimeout else 0)
          (quantumOf env.perpSizeDecimals) →
      (repairHedge cfg s env).2 =
        [Action.placeOrder .perpV .buy
          (quantizeBy (if env.sziTimeout < 0 then -env.sziTimeout else 0)
            (quantumOf env.perpSizeDecimals))
          (if env.perpAsk > 0 then env.perpAsk else env.perpBid)
          (repairTif cfg) true false]) := by
  constructor
  · unfold repairHedge
    dsimp only
    rw [if_pos htimeout]
  · intro hok hqty
    have hshort : 0 < (if env.sziTimeout < 0 then -env.sziTimeout else 0) := by
      by_contra hns
      push_neg at hns
      exact absurd (quantizeBy_nonpos _ _ (quantumOf_pos env.perpSizeDecimals) hns)
        (by linarith)
    unfold repairHedge
    dsimp only
    rw [if_pos htimeout]
    dsimp only
    rw [hok]
    rw [if_pos rfl, if_pos hshort, if_pos hqty]
    by_cases ha : env.perpAsk > 0
    · rw [if_pos ha, if_pos ha]
    · rw [if_neg ha, if_neg ha, if_neg ha]

/-- Witness for C3 (amended): a timed-out repair episode with a
venue-reported short of 5 units submits one reduce-only BUY of 5 at the ask
with tif Ioc, and the machine is Idle afterwards. -/
theorem repair_timeout_unwind_witness :
    (repairHedge wRunnerCfg cexRepairRunner
      { cexRepairEnv with sziTimeout := -5 }).1.repairActive = false ∧
    (repairHedge wRunnerCfg cexRepairRunner
      { cexRepairEnv with sziTimeout := -5 }).2 =
      [Action.placeOrder .perpV .buy 5 (1002/100) "Ioc" true false] := by
  have h := repair_timeout_unwind wRunnerCfg cexRepairRunner
    { cexRepairEnv with sziTimeout := -5 } rfl
    (by norm_num [repairTimeoutS, wRunnerCfg, cexRepairRunner, cexRepairEnv, initRunner])
  refine ⟨h.1, ?_⟩
  have h2 := h.2 rfl (by norm_num [quantizeBy, truncQ, quantumOf, cexRepairEnv])
  rw [h2]
  norm_num [quantizeBy, truncQ, quantumOf, cexRepairEnv, repairTif, wRunnerCfg]

/-- Counterexample for C3 as stated: a timed-out repair episode with every
gateway call succeeding and a non-zero venue-reported short of 0.005 units
(below the 0.01 size quantum) attempts no reduce-only BUY at all: the order
quantity is floored to zero, so no place_order call is made even though the
short size is non-zero. -/
theorem repair_timeout_subquantum_cex :
    cexRepairRunner.repairActive = true ∧
    cexRepairEnv.sziTimeout < 0 ∧
    repairTimeoutS wRunnerCfg < cexRepairEnv.now - cexRepairRunner.repairStartTs ∧
    cexRepairEnv.timeoutOk = true ∧
    (repairHedge wRunnerCfg cexRepairRunner cexRepairEnv).2 = [] ∧
    (repairHedge wRunnerCfg cexRepairRunner cexRepairEnv).1.repairActive = false := by
  norm_num [repairHedge, repairTimeoutS, repairStageS, repairTif, quantumOf,
    quantizeBy, truncQ, wRunnerCfg, cexRepairRunner, cexRepairEnv, initRunner,
    wCfg, wSyms]

theorem pnlLogging_lastEntryTs (cfg : RunnerCfg) (s : Runner) (env : PnlEnv) :
    (pnlLogging cfg s env).lastEntryTs = s.lastEntryTs := by
  cases hE : env.align.entryPxActual <;>
    by_cases hA : cfg.alignEnabled <;>
      by_cases hM : cfg.alignMode = "force" <;>
        by_cases hPok : env.align.perpOk <;>
          by_cases hSok : env.align.spotOk <;>
            simp [pnlLogging, hE, hA, hM, hPok, hSok, apply_ite Runner.lastEntryTs]

theorem riskOk_false_of_throttle (cfg : RunnerCfg) (s : Runner) (env : RiskEnv)
    (h : env.now - s.lastEntryTs < minEntryIntervalS cfg) :
    (riskOk cfg s env).1 = false := by
  unfold riskOk
  dsimp only
  repeat' split
  all_goals first | rfl | simp_all

theorem evalCall_notin_cancelAll (env : CancelAllEnv) :
    Action.evalCall ∉ cancelAll env := by
  simp [cancelAll, List.mem_append, List.mem_filterMap]

theorem evalCall_notin_closePerp (cfg : RunnerCfg) (s : Runner) (env : ClosePerpEnv) :
    Action.evalCall ∉ (closePerp cfg s env).2 := by
  unfold closePerp
  dsimp only
  repeat' split
  all_goals simp

theorem evalCall_notin_closeSpot (cfg : RunnerCfg) (s : Runner) (env : CloseSpotEnv) :
    Action.evalCall ∉ (closeSpot cfg s env).2 := by
  unfold closeSpot
  cases hb : baseAmountOf env.balances cfg.syms.spotBase with
  | none => simp
  | some amt =>
    dsimp only
    repeat' split
    all_goals simp

/-- C4 (amended): step drives the repair machine at the end of a cycle but
does not itself guard entry on repair_active; what blocks a new entry right
after the entry that started a repair episode is the generic entry throttle.
Whenever the cycle runs within min_entry_interval_s of the last entry (in
particular at the start of a repair episode, whose activation stamps
last_entry_ts), _risk_ok rejects the cycle and evaluate_and_place is not
invoked.  Outside that throttle window an entry during an active repair is
possible, as the counterexample shows. -/
theorem step_no_entry_within_throttle (cfg : RunnerCfg) (s : Runner) (env : StepEnv)
    (hactive : s.repairActive = true)
    (hthrottle : env.risk.now - s.lastEntryTs < minEntryIntervalS cfg) :
    Action.evalCall ∉ (stepFn cfg s env).2 := by
  have hrk : (riskOk cfg (pnlLogging cfg s env.pnl) env.risk).1 = false :=
    riskOk_false_of_throttle cfg _ env.risk
      (by rw [pnlLogging_lastEntryTs]; exact hthrottle)
  unfold stepFn
  cases hapr : computeExpectedFundingApr env.strat with
  | none => simp
  | some apr =>
    dsimp only
    repeat' split
    all_goals
      first
      | (simp only [List.mem_append, not_or]
         repeat' apply And.intro
         all_goals
           first
             | exact evalCall_notin_cancelAll _
             | exact evalCall_notin_closePerp _ _ _
             | exact evalCall_notin_closeSpot _ _ _)
      | (simp
         done)
      | simp_all

/-- Witness for C4 (amended): a cycle 0.25 seconds after the entry that
started the active repair episode invokes no evaluate_and_place. -/
theorem step_no_entry_within_throttle_witness :
    Action.evalCall ∉ (stepFn wRunnerCfg cexRepairRunner
      { c4StepEnv with
        risk := { now := 20005/20, opensOk := true,
                  spotOpens := [], perpOpens := [] } }).2 := by
  exact step_no_entry_within_throttle wRunnerCfg cexRepairRunner
    { c4StepEnv with
      risk := { now := 20005/20, opensOk := true,
                spotOpens := [], perpOpens := [] } }
    rfl
    (by norm_num [minEntryIntervalS, wRunnerCfg, cexRepairRunner, cexRepairEnv,
      initRunner])

set_option maxHeartbeats 2000000 in
/-- Counterexample for C4 as stated: a cycle beginning with an active repair
episode, two seconds after the entry that started it, still invokes
evaluate_and_place and places new entry orders (including a perp order): step
has no repair_active guard, and the entry throttle has already elapsed. -/
theorem step_entry_during_repair_cex :
    cexRepairRunner.repairActive = true ∧
    Action.evalCall ∈ (stepFn wRunnerCfg cexRepairRunner c4StepEnv).2 ∧
    0 < perpPlaceCount (stepFn wRunnerCfg cexRepairRunner c4StepEnv).2 := by
  norm_num [stepFn, computeExpectedFundingApr, pnlLogging, hasExposure,
    riskOk, dgHalted, allowRL, minEntryIntervalS, enterExitCooldownS, canAdd,
    nlookup, nupdate, ntotal, applyNLOrKeep, applyNL, evaluateAndPlace,
    computeTargetQtys, bestBidAsk, quantizeSize, quantizeBy, truncQ, quantumOf,
    priceForSide, quoteBalanceOf, hasErrorStatus, findRestingOid, filledOf,
    emptyEvalResult, entryBookkeeping, anyResting, repairHedge, repairTimeoutS,
    repairStageS, repairTif, cancelAll, perpPlaceCount, baseActualOf,
    wRunnerCfg, wCfg, wSyms, wEnv, cexRepairRunner, cexRepairEnv, c4StepEnv,
    initRunner, List.find?, List.countP, List.countP.go]

end FundingFee
